import Mathlib

/-!
# bs: configuration loading and the lifecycle supervisor of `main.go`

A shallow embedding of `main.go` of the `bs` agent.

* Part 1 embeds `loadConfig` together with the library functions it calls
  (`strconv.Atoi`, `strings.Split`, the `time.Duration` multiplication).
* Part 2 embeds `statusReporter`, `startSignalHandler` and `main` as an
  interleaving transition system over goroutine program counters, channels
  and an event history.
-/

set_option maxRecDepth 8000

namespace Bs

/-! ## Part 1: configuration -/

/-- Go strings, as sequences of characters. -/
abbrev GoString := List Char

/-- The process environment as `os.Getenv` sees it: a variable that is not set
reads as the empty string. -/
abbrev Env := String → GoString

/-- The two error kinds of `strconv` (`ErrSyntax`, `ErrRange`). -/
inductive NumError where
  | errSyntax
  | errRange
  deriving DecidableEq, Repr

/-- The largest `uint64`. -/
def maxUint64 : Nat := 2 ^ 64 - 1

/-- Test `'0' <= c && c <= '9'` of `strconv.ParseUint`. -/
def isDigit (c : Char) : Bool := decide ('0'.toNat ≤ c.toNat) && decide (c.toNat ≤ '9'.toNat)

/-- Digit value `c - '0'`. -/
def digitVal (c : Char) : Nat := c.toNat - '0'.toNat

/-- The digit loop of `strconv.ParseUint` in base 10: `n` is the accumulator
(a `uint64`), `maxVal = 1<<bitSize - 1`.  A character that is not a digit is a
syntax error; an accumulator at or above `maxUint64/10 + 1`, or a sum that wraps
or exceeds `maxVal`, is a range error. -/
def parseUintLoop (maxVal : Nat) : GoString → Nat → Except NumError Nat
  | [], n => .ok n
  | c :: cs, n =>
    if !isDigit c then .error .errSyntax
    else if n ≥ maxUint64 / 10 + 1 then .error .errRange
    else
      let n10 := (n * 10) % 2 ^ 64
      let n1 := (n10 + digitVal c) % 2 ^ 64
      if n1 < n10 ∨ n1 > maxVal then .error .errRange
      else parseUintLoop maxVal cs n1

/-- Model of `strconv.ParseUint(s, 10, bitSize)`. -/
def ParseUint (s : GoString) (bitSize : Nat) : Except NumError Nat :=
  if s = [] then .error .errSyntax
  else parseUintLoop (2 ^ bitSize - 1) s 0

/-- Model of `strconv.ParseInt(s, 10, 0)` on a platform whose `int` has `intSize` bits:
an optional sign, then `ParseUint`, then the range check against `1 << (intSize-1)`. -/
def ParseInt (intSize : Nat) (s : GoString) : Except NumError Int :=
  match s with
  | [] => .error .errSyntax
  | c :: cs =>
    let neg := decide (c = '-')
    let rest := if c = '+' ∨ c = '-' then cs else s
    match ParseUint rest intSize with
    | .error e => .error e
    | .ok un =>
      let cutoff := 2 ^ (intSize - 1)
      if !neg && decide (un ≥ cutoff) then .error .errRange
      else if neg && decide (un > cutoff) then .error .errRange
      else .ok (if neg then -(un : Int) else (un : Int))

/-- Model of `strconv.Atoi`: `ParseInt(s, 10, 0)` converted to `int`. -/
def Atoi (intSize : Nat) (s : GoString) : Except NumError Int := ParseInt intSize s

/-- The decimal numeral of a natural number, most significant digit first. -/
def decimal (n : Nat) : GoString :=
  if n = 0 then ['0'] else (Nat.digits 10 n).reverse.map Nat.digitChar

/-- Two's-complement wrap of an integer into `int64`. -/
def wrapInt64 (x : Int) : Int := (x + 2 ^ 63) % 2 ^ 64 - 2 ^ 63

/-- Constant `time.Second`, in nanoseconds. -/
def Second : Int := 1000000000

/-- Constant `defaultInterval` of `main.go`. -/
def defaultInterval : Int := 60

/-- Expression `time.Duration(n) * time.Second`: an `int64` multiplication. -/
def secondsToDuration (n : Int) : Int := wrapInt64 (wrapInt64 n * Second)

/-- Model of `strings.IndexByte`; `none` stands for `-1`. -/
def Index : GoString → Char → Option Nat
  | [], _ => none
  | c :: cs, sep => if c = sep then some 0 else (Index cs sep).map (· + 1)

/-- Model of `strings.Count` for a one-character separator. -/
def Count : GoString → Char → Nat
  | [], _ => 0
  | c :: cs, sep => (if c = sep then 1 else 0) + Count cs sep

/-- The loop `for i < n` of `strings.genSplit`, with `k = n - i` iterations left:
cut at the next separator, or stop when there is none or the budget is spent. -/
def genSplitLoop : Nat → GoString → Char → List GoString
  | 0, s, _ => [s]
  | k + 1, s, sep =>
    match Index s sep with
    | none => [s]
    | some m => s.take m :: genSplitLoop k (s.drop (m + 1)) sep

/-- Model of `strings.genSplit(s, sep, 0, n)` for a one-character separator. -/
def genSplit (s : GoString) (sep : Char) (n : Int) : List GoString :=
  if n = 0 then []
  else
    let n1 : Nat := if n < 0 then Count s sep + 1 else n.toNat
    let n2 : Nat := if n1 > s.length + 1 then s.length + 1 else n1
    genSplitLoop (n2 - 1) s sep

/-- Model of `strings.Split(s, sep)`, which is `genSplit(s, sep, 0, -1)`. -/
def Split (s : GoString) (sep : Char) : List GoString := genSplit s sep (-1)

/-- Model of `strings.Join` for a one-character separator. -/
def Join : List GoString → Char → GoString
  | [], _ => []
  | [a], _ => a
  | a :: b :: rest, sep => a ++ sep :: Join (b :: rest) sep

/-- The global `config` of `main.go`; durations are `int64` nanoseconds and a
`nil` slice is the empty list. -/
structure Config where
  DockerEndpoint : GoString
  TsuruEndpoint : GoString
  TsuruToken : GoString
  AppNameEnvVar : GoString
  ProcessNameEnvVar : GoString
  MetricsInterval : Int
  StatusInterval : Int
  SyslogListenAddress : GoString
  SyslogForwardAddresses : List GoString
  deriving DecidableEq, Repr

/-- The interval rule of `loadConfig`: the parsed value, replaced by
`defaultInterval` exactly when `Atoi` reports an error, times `time.Second`. -/
def parseInterval (intSize : Nat) (s : GoString) : Int :=
  let parsedInterval : Int :=
    match Atoi intSize s with
    | .error _ => defaultInterval
    | .ok v => v
  secondsToDuration parsedInterval

/-- Function `loadConfig` of `main.go`, on a platform whose `int` has `intSize` bits. -/
def loadConfig (intSize : Nat) (env : Env) : Config :=
  { AppNameEnvVar := "TSURU_APPNAME=".toList
    ProcessNameEnvVar := "TSURU_PROCESSNAME=".toList
    DockerEndpoint := env "DOCKER_ENDPOINT"
    TsuruEndpoint := env "TSURU_ENDPOINT"
    TsuruToken := env "TSURU_TOKEN"
    StatusInterval := parseInterval intSize (env "STATUS_INTERVAL")
    MetricsInterval := parseInterval intSize (env "METRICS_INTERVAL")
    SyslogListenAddress := env "SYSLOG_LISTEN_ADDRESS"
    SyslogForwardAddresses :=
      let forwarders := env "SYSLOG_FORWARD_ADDRESSES"
      if forwarders ≠ [] then Split forwarders ',' else [] }

/-- An environment that sets only the given variables. -/
def envOf (vars : List (String × String)) : Env :=
  fun k => match vars.lookup k with
    | some v => v.toList
    | none => []

/-! ## Part 2: the lifecycle supervisor

`main`, the goroutine of `statusReporter` and the goroutine of
`startSignalHandler` are embedded as one transition system.  A state holds the
program counter of each of the three, the two channels `abort` and `exit`
(nobody sends on them, so each is just open or closed), the buffered `sigChan`,
the pending timer of `time.After` and the history of events.  A schedule is a
list of actions: a goroutine performs its next statement, the runtime delivers
a signal, or time passes.  The calls into other packages and files
(`lf.Start`, `metric.NewRunner`, `mRunner.Start`, `mRunner.Stop`,
`reportStatus`) are atomic steps that return; the outcome of the two `Start`
calls is an input.  The default disposition of a signal nobody asked for lies
outside the model. -/

/-- Signal numbers, standing for `os.Signal`. -/
abbrev Signal := Nat

/-- Signal `os.Interrupt` (`SIGINT`). -/
def Interrupt : Signal := 2

/-- Signal `syscall.SIGQUIT`. -/
def SIGQUIT : Signal := 3

/-- Signal `syscall.SIGTERM`. -/
def SIGTERM : Signal := 15

/-- One listener created by `startSignalHandler`: whether its goroutine waits at
`<-sigChan`, the set handed to `signal.Notify` (`none` before the call), the
contents of the buffered `sigChan`, and the arguments of the callback
invocations so far. -/
structure Listener where
  waiting : Bool
  notify : Option (List Signal)
  sigChan : List Signal
  calls : List Signal
  deriving DecidableEq, Repr

/-- Capacity of `sigChan`: `make(chan os.Signal, 4)`. -/
def sigChanCap : Nat := 4

/-- Statement `sigChan := make(chan os.Signal, 4)`. -/
def Listener.make : Listener :=
  { waiting := false, notify := none, sigChan := [], calls := [] }

/-- Statement `go func() { ... }()`: the goroutine exists and waits at `<-sigChan`. -/
def Listener.spawn (l : Listener) : Listener := { l with waiting := true }

/-- Statement `signal.Notify(sigChan, signals...)`. -/
def Listener.notifyWith (l : Listener) (signals : List Signal) : Listener :=
  { l with notify := some signals }

/-- Whether `signal.Notify` asked for `sig`: an empty set asks for every signal. -/
def Listener.wants (l : Listener) (sig : Signal) : Bool :=
  match l.notify with
  | none => false
  | some [] => true
  | some (x :: xs) => decide (sig ∈ x :: xs)

/-- Package `signal` relays a signal to the listener: a send on `sigChan` that does
not block, so a signal that finds the buffer full is dropped.  The order of
deliveries is the order in which the signals are relayed. -/
def Listener.deliver (l : Listener) (sig : Signal) : Listener :=
  if l.wants sig && decide (l.sigChan.length < sigChanCap) then
    { l with sigChan := l.sigChan ++ [sig] }
  else l

/-- The goroutine body `if signal, ok := <-sigChan; ok { callback(signal) }`:
the single receive, which yields the signal the callback is invoked with;
`none` when the goroutine is blocked on the empty channel or has finished. -/
def Listener.receive (l : Listener) : Option (Signal × Listener) :=
  if l.waiting then
    match l.sigChan with
    | [] => none
    | sig :: rest => some (sig, { l with waiting := false, sigChan := rest, calls := l.calls ++ [sig] })
  else none

/-- The listener as `startSignalHandler(callback, signals...)` leaves it. -/
def startSignalHandler (signals : List Signal) : Listener :=
  (Listener.make.spawn).notifyWith signals

/-- What can happen to a listener: a signal is delivered to the process, or the
goroutine is scheduled. -/
inductive ListenerEvent where
  | deliver (sig : Signal)
  | goroutine
  deriving DecidableEq, Repr

/-- One event applied to a listener. -/
def Listener.next (l : Listener) : ListenerEvent → Listener
  | .deliver sig => l.deliver sig
  | .goroutine =>
    match l.receive with
    | some (_, l1) => l1
    | none => l

/-- A sequence of events applied to a listener. -/
def Listener.run (l : Listener) (evs : List ListenerEvent) : Listener := evs.foldl Listener.next l

/-- The signals of a sequence of events that the set `signals` of `signal.Notify`
matches, in delivery order. -/
def matching (signals : List Signal) (evs : List ListenerEvent) : List Signal :=
  evs.filterMap fun e =>
    match e with
    | .deliver sig => if (startSignalHandler signals).wants sig then some sig else none
    | .goroutine => none

/-- Program counter of `main`: the statement it performs next. -/
inductive MainPc where
  | loadConfig
  | lfStart
  | fatalf
  | newRunner
  | mStart
  | statusReporter
  | spawnHandler
  | notify
  | waitExit
  | returned
  | terminated
  deriving DecidableEq, Repr

/-- Program counter of the goroutine of `statusReporter`. -/
inductive ReporterPc where
  | notStarted
  | loopHead
  | select
  | report
  | closeExit
  | returned
  deriving DecidableEq, Repr

/-- Where the goroutine of `startSignalHandler` is with respect to the callback
of `main`: outside it, about to `close(abortReporter)`, or about to call
`mRunner.Stop()`. -/
inductive CallbackPc where
  | outside
  | closeAbort
  | stopRunner
  deriving DecidableEq, Repr

/-- Observable events of an execution. -/
inductive Event where
  | configLoaded
  | lfStart (ok : Bool)
  | fatal
  | runnerCreated
  | runnerStart (ok : Bool)
  | reporterSpawned
  | handlerSpawned
  | notified
  | report
  | abortObserved
  | exitClosed
  | callback (sig : Signal)
  | abortClosed
  | runnerStopped
  | mainReturned
  | panic
  deriving DecidableEq, Repr

/-- The inputs of an execution that the program does not control: the width of
`int`, the environment, and whether `lf.Start()` and `mRunner.Start()` return an
error. -/
structure World where
  intSize : Nat
  env : Env
  lfStartErr : Bool
  mStartErr : Bool

/-- Zero value of the global `config`. -/
def Config.zero : Config :=
  { DockerEndpoint := [], TsuruEndpoint := [], TsuruToken := [], AppNameEnvVar := [],
    ProcessNameEnvVar := [], MetricsInterval := 0, StatusInterval := 0,
    SyslogListenAddress := [], SyslogForwardAddresses := [] }

/-- State of the process. -/
structure State where
  config : Config
  mainPc : MainPc
  reporterPc : ReporterPc
  callbackPc : CallbackPc
  listener : Listener
  abortClosed : Bool
  exitClosed : Bool
  timer : Nat
  reports : Nat
  exitCode : Option Nat
  log : List Event
  deriving DecidableEq, Repr

/-- State at process start. -/
def State.init : State :=
  { config := Config.zero, mainPc := .loadConfig, reporterPc := .notStarted,
    callbackPc := .outside, listener := Listener.make, abortClosed := false,
    exitClosed := false, timer := 0, reports := 0, exitCode := none, log := [] }

/-- Modelled from the spec: `LogForwarder.Start` belongs to package `bs/log`, whose
source is not at hand; the spec gives it the interface `Start() -> Result<(), Error>`
and says that once started the service runs in the background.  The call is one
atomic step that returns, and `true` here stands for `err != nil`. -/
def lfStart (w : World) : Bool := w.lfStartErr

/-- Modelled from the spec: `Runner.Start` belongs to package `bs/metric`, whose
source is not at hand; the spec gives it the interface `Start() -> Result<(), Error>`.
The call is one atomic step that returns, and `true` here stands for `err != nil`. -/
def mRunnerStart (w : World) : Bool := w.mStartErr

/-- Modelled from the spec: `Runner.Stop` belongs to package `bs/metric`, whose source
is not at hand; the spec gives it the interface `Stop()`, without a result.  The
call is one atomic step that returns and is recorded in the history. -/
def mRunnerStop (s : State) : State := { s with log := s.log ++ [.runnerStopped] }

/-- Modelled from the spec: `reportStatus` is defined in another file of package
`main`, which is not at hand; the spec treats it as a black box whose result the
loop does not consume and assumes that it neither blocks nor throws.  The call is
one atomic step that returns and is counted and recorded in the history. -/
def reportStatus (s : State) : State :=
  { s with reports := s.reports + 1, log := s.log ++ [.report] }

/-- A run-time panic (closing a closed channel) ends the process with status 2. -/
def State.panic (s : State) : State :=
  { s with exitCode := some 2, log := s.log ++ [.panic] }

/-- The next statement of `main`; `none` when `main` is blocked or has ended. -/
def stepMain (w : World) (s : State) : Option State :=
  match s.mainPc with
  | .loadConfig =>
    some { s with config := loadConfig w.intSize w.env, mainPc := .lfStart,
                  log := s.log ++ [.configLoaded] }
  | .lfStart =>
    if lfStart w then some { s with mainPc := .fatalf, log := s.log ++ [.lfStart false] }
    else some { s with mainPc := .newRunner, log := s.log ++ [.lfStart true] }
  | .fatalf =>
    some { s with mainPc := .terminated, exitCode := some 1, log := s.log ++ [.fatal] }
  | .newRunner => some { s with mainPc := .mStart, log := s.log ++ [.runnerCreated] }
  | .mStart =>
    some { s with mainPc := .statusReporter, log := s.log ++ [.runnerStart (!mRunnerStart w)] }
  | .statusReporter =>
    some { s with mainPc := .spawnHandler, reporterPc := .loopHead, abortClosed := false,
                  exitClosed := false, log := s.log ++ [.reporterSpawned] }
  | .spawnHandler =>
    some { s with mainPc := .notify, listener := Listener.make.spawn,
                  log := s.log ++ [.handlerSpawned] }
  | .notify =>
    some { s with mainPc := .waitExit,
                  listener := s.listener.notifyWith [Interrupt, SIGTERM, SIGQUIT],
                  log := s.log ++ [.notified] }
  | .waitExit =>
    if s.exitClosed then
      some { s with mainPc := .returned, exitCode := some 0, log := s.log ++ [.mainReturned] }
    else none
  | .returned => none
  | .terminated => none

/-- The next step of the goroutine of `statusReporter`.  At the `select`,
`pickAbort` is the case the runtime chooses: `<-abort` can be taken once `abort`
is closed, `<-time.After(config.StatusInterval)` once the timer has run out. -/
def stepReporter (s : State) (pickAbort : Bool) : Option State :=
  match s.reporterPc with
  | .notStarted => none
  | .loopHead => some { s with reporterPc := .select, timer := s.config.StatusInterval.toNat }
  | .select =>
    if pickAbort then
      if s.abortClosed then
        some { s with reporterPc := .closeExit, log := s.log ++ [.abortObserved] }
      else none
    else
      if s.timer = 0 then some { s with reporterPc := .report } else none
  | .report => some { reportStatus s with reporterPc := .loopHead }
  | .closeExit =>
    if s.exitClosed then some s.panic
    else some { s with reporterPc := .returned, exitClosed := true, log := s.log ++ [.exitClosed] }
  | .returned => none

/-- The next step of the goroutine of `startSignalHandler`, whose callback is the
closure of `main`: `close(abortReporter)` and then `mRunner.Stop()`. -/
def stepHandler (s : State) : Option State :=
  match s.callbackPc with
  | .outside =>
    match s.listener.receive with
    | none => none
    | some (sig, l) =>
      some { s with listener := l, callbackPc := .closeAbort, log := s.log ++ [.callback sig] }
  | .closeAbort =>
    if s.abortClosed then some s.panic
    else some { s with callbackPc := .stopRunner, abortClosed := true,
                       log := s.log ++ [.abortClosed] }
  | .stopRunner => some { mRunnerStop s with callbackPc := .outside }

/-- The actions a schedule is made of. -/
inductive Action where
  | main
  | reporter (pickAbort : Bool)
  | handler
  | deliver (sig : Signal)
  | tick (d : Nat)
  deriving DecidableEq, Repr

/-- One action; `none` when the action is not enabled.  Nothing is enabled once
the process has ended. -/
def step (w : World) (s : State) (a : Action) : Option State :=
  if s.exitCode.isSome then none
  else
    match a with
    | .main => stepMain w s
    | .reporter pickAbort => stepReporter s pickAbort
    | .handler => stepHandler s
    | .deliver sig => some { s with listener := s.listener.deliver sig }
    | .tick d => some { s with timer := s.timer - d }

/-- One action of a schedule; an action that is not enabled leaves the state as it is. -/
def next (w : World) (s : State) (a : Action) : State := (step w s a).getD s

/-- The state a schedule leads to. -/
def run (w : World) (s : State) (acts : List Action) : State := acts.foldl (next w) s

/-- The state a schedule leads to from process start. -/
def exec (w : World) (acts : List Action) : State := run w State.init acts

/-- The states of the supervisor. -/
inductive Phase where
  | starting
  | running
  | shuttingDown
  | stopped
  deriving DecidableEq, Repr

/-- Position of a supervisor state in the order Starting, Running, ShuttingDown, Stopped. -/
def Phase.rank : Phase → Nat
  | .starting => 0
  | .running => 1
  | .shuttingDown => 2
  | .stopped => 3

/-- The supervisor state of a process state: Stopped once `main` has returned,
ShuttingDown once the signal callback has fired, Running once the listener is
armed and `main` waits at `<-reporterEnded`, Starting before. -/
def phase (s : State) : Phase :=
  if s.mainPc = .returned then .stopped
  else if s.listener.calls ≠ [] then .shuttingDown
  else if s.mainPc = .waitExit then .running
  else .starting

/-- Events issued by the status reporter task. -/
def Event.ofReporter : Event → Bool
  | .report => true
  | .abortObserved => true
  | .exitClosed => true
  | _ => false

/-- An event with the outcome of `mRunner.Start` forgotten. -/
def Event.forgetStart : Event → Event
  | .runnerStart _ => .runnerStart true
  | e => e

/-- An execution with the outcome of `mRunner.Start` forgotten. -/
def forgetRunnerStart (s : State) : State :=
  { s with log := s.log.map Event.forgetStart }

/-- The part of an `Atoi` argument after its optional sign. -/
def unsigned : GoString → GoString
  | [] => []
  | c :: cs => if c = '+' ∨ c = '-' then cs else c :: cs

/-- A world with the given environment on a 64-bit platform. -/
def World.of (vars : List (String × String)) (lfStartErr mStartErr : Bool) : World :=
  { intSize := 64, env := envOf vars, lfStartErr := lfStartErr, mStartErr := mStartErr }

/-- Statements of `main` that precede the call of `statusReporter` (or follow `log.Fatalf`). -/
def MainPc.beforeReporter : MainPc → Bool
  | .loadConfig => true
  | .lfStart => true
  | .fatalf => true
  | .newRunner => true
  | .mStart => true
  | .statusReporter => true
  | .terminated => true
  | _ => false

/-- Statements of `main` that follow `signal.Notify`. -/
def MainPc.armed : MainPc → Bool
  | .waitExit => true
  | .returned => true
  | _ => false

/-- Exit status that goes with a program counter of `main`. -/
def MainPc.exitCode : MainPc → Option Nat
  | .returned => some 0
  | .terminated => some 1
  | _ => none

/-- Number of statements `main` has performed when it stands at a program counter. -/
def MainPc.idx : MainPc → Nat
  | .loadConfig => 0
  | .lfStart => 1
  | .fatalf => 2
  | .newRunner => 2
  | .mStart => 3
  | .statusReporter => 4
  | .spawnHandler => 5
  | .notify => 6
  | .waitExit => 7
  | .returned => 8
  | .terminated => 3

/-- Relations between the program counters, the channels and the listener that
hold in every reachable state. -/
structure InvS (w : World) (s : State) : Prop where
  early : s.mainPc.beforeReporter = true →
    s.reporterPc = .notStarted ∧ s.abortClosed = false ∧ s.exitClosed = false ∧
    s.listener = Listener.make ∧ s.callbackPc = .outside
  spawnH : s.mainPc = .spawnHandler → s.listener = Listener.make ∧ s.callbackPc = .outside
  started : s.mainPc.beforeReporter = false → s.reporterPc ≠ .notStarted
  notif : s.mainPc = .notify →
    s.listener = Listener.make.spawn ∧ s.callbackPc = .outside ∧ s.abortClosed = false
  armed : s.mainPc.armed = true → s.listener.notify = some [Interrupt, SIGTERM, SIGQUIT]
  waiting : s.listener.waiting = true →
    s.listener.calls = [] ∧ s.callbackPc = .outside ∧ s.abortClosed = false
  inCallback : s.callbackPc = .closeAbort → s.abortClosed = false
  fired : s.callbackPc ≠ .outside → s.listener.calls ≠ []
  closedAbort : s.abortClosed = true → s.listener.calls ≠ []
  exitIff : s.exitClosed = true ↔ s.reporterPc = .returned
  observed : s.reporterPc = .closeExit ∨ s.reporterPc = .returned → s.abortClosed = true
  code : s.exitCode = s.mainPc.exitCode
  ret : s.mainPc = .returned → s.exitClosed = true
  lfErr : s.mainPc = .fatalf ∨ s.mainPc = .terminated → w.lfStartErr = true
  lfOk : s.mainPc.idx ≥ 2 → s.mainPc ≠ .fatalf → s.mainPc ≠ .terminated → w.lfStartErr = false

/-- The history of an execution in which `lf.Start` fails, by program counter of `main`. -/
def failLog : MainPc → List Event
  | .lfStart => [.configLoaded]
  | .fatalf => [.configLoaded, .lfStart false]
  | .terminated => [.configLoaded, .lfStart false, .fatal]
  | _ => []

/-- What the status reporter task has issued after its reports, by program counter. -/
def reporterTail : ReporterPc → List Event
  | .closeExit => [.abortObserved]
  | .returned => [.abortObserved, .exitClosed]
  | _ => []

/-- In a history, every event satisfying `Q` comes after some event satisfying `P`. -/
def PrecededBy (log : List Event) (P Q : Event → Prop) : Prop :=
  ∀ pre post e, log = pre ++ e :: post → Q e → ∃ x ∈ pre, P x

/-- Relations between the history and the state that hold in every reachable state. -/
structure InvL (w : World) (s : State) : Prop where
  fail : w.lfStartErr = true → s.log = failLog s.mainPc
  abortCount : s.log.count .abortClosed = if s.abortClosed = true then 1 else 0
  noPanic : Event.panic ∉ s.log
  rep : s.log.filter Event.ofReporter =
    List.replicate s.reports .report ++ reporterTail s.reporterPc
  cb : s.listener.calls ≠ [] → ∃ sig, Event.callback sig ∈ s.log
  ord1 : PrecededBy s.log (fun x => x = .exitClosed) (fun y => y = .mainReturned)
  ord2 : PrecededBy s.log (fun x => x = .abortClosed) (fun y => y = .exitClosed)
  ord3 : PrecededBy s.log (fun x => ∃ sig, x = .callback sig) (fun y => y = .abortClosed)

/-- A schedule with two reports, a SIGTERM and a full shutdown (for an interval of 0). -/
def shutdownSchedule : List Action :=
  [.main, .main, .main, .main, .main, .main, .main, .reporter false, .reporter false,
    .reporter false, .reporter false, .deliver 15, .reporter false, .reporter false,
    .handler, .handler, .reporter false, .reporter true, .reporter true, .handler,
    .reporter false, .main]

/-- Relations that keep the signal goroutine live in every reachable state: once
the listener is armed its goroutine either still waits at `<-sigChan` or has
invoked the callback, and a callback that was invoked is about to close the abort
channel or has closed it. -/
structure InvH (w : World) (s : State) : Prop where
  live : s.mainPc.armed = true → s.listener.waiting = false → s.listener.calls ≠ []
  closing : s.listener.calls ≠ [] → s.callbackPc = .closeAbort ∨ s.abortClosed = true

/-! ### Facts about the library models -/

theorem wrapInt64_of_range (x : Int) (h1 : -2 ^ 63 ≤ x) (h2 : x < 2 ^ 63) : wrapInt64 x = x := by
  unfold wrapInt64
  rw [Int.emod_eq_of_lt (by omega) (by omega)]
  omega

theorem secondsToDuration_of_range (n : Int) (h1 : -9223372036 ≤ n) (h2 : n ≤ 9223372036) :
    secondsToDuration n = n * 1000000000 := by
  unfold secondsToDuration Second
  rw [wrapInt64_of_range n (by omega) (by omega)]
  exact wrapInt64_of_range _ (by omega) (by omega)

theorem parseInterval_ok (intSize : Nat) (s : GoString) (n : Int)
    (h : Atoi intSize s = .ok n) : parseInterval intSize s = secondsToDuration n := by
  simp [parseInterval, h]

theorem parseInterval_error (intSize : Nat) (s : GoString) (e : NumError)
    (h : Atoi intSize s = .error e) : parseInterval intSize s = 60 * 1000000000 := by
  simp only [parseInterval, h]
  decide

theorem parseUintLoop_nondigit (maxVal : Nat) (s : GoString) (n : Nat)
    (h : ∃ c ∈ s, isDigit c = false) : ∃ e, parseUintLoop maxVal s n = .error e := by
  induction s generalizing n with
  | nil => simp at h
  | cons c cs ih =>
    unfold parseUintLoop
    by_cases hc : isDigit c = false
    · simp [hc]
    · have hcs : ∃ d ∈ cs, isDigit d = false := by
        obtain ⟨d, hd, hd2⟩ := h
        rcases List.mem_cons.mp hd with rfl | hd
        · exact absurd hd2 hc
        · exact ⟨d, hd, hd2⟩
      simp only [Bool.not_eq_false] at hc
      simp only [hc, Bool.not_true, Bool.false_eq_true, if_false]
      split
      · exact ⟨_, rfl⟩
      · split
        · exact ⟨_, rfl⟩
        · exact ih _ hcs

theorem Atoi_nondigit (intSize : Nat) (s : GoString)
    (h : ∃ c ∈ unsigned s, isDigit c = false) : ∃ e, Atoi intSize s = .error e := by
  cases s with
  | nil => simp [unsigned] at h
  | cons c cs =>
    simp only [unsigned] at h
    simp only [Atoi, ParseInt]
    have hne : (if c = '+' ∨ c = '-' then cs else c :: cs) ≠ [] := by
      intro h0
      rw [h0] at h
      simp at h
    obtain ⟨e, he⟩ := parseUintLoop_nondigit (2 ^ intSize - 1) _ 0 h
    simp only [ParseUint, hne, if_false, he]
    exact ⟨_, rfl⟩

theorem digitChar_spec (d : Nat) (h : d < 10) :
    isDigit (Nat.digitChar d) = true ∧ digitVal (Nat.digitChar d) = d ∧
    Nat.digitChar d ≠ '+' ∧ Nat.digitChar d ≠ '-' := by
  interval_cases d <;> decide

theorem foldl_digits_ge (ds : List Nat) (acc : Nat) :
    acc ≤ ds.foldl (fun a d => a * 10 + d) acc := by
  induction ds generalizing acc with
  | nil => exact le_refl _
  | cons d ds ih =>
    have := ih (acc * 10 + d)
    simp only [List.foldl_cons]
    omega

theorem parseUintLoop_digits (maxVal : Nat) (ds : List Nat) (acc : Nat)
    (hd : ∀ d ∈ ds, d < 10) (hmax : maxVal < 2 ^ 64)
    (hv : ds.foldl (fun a d => a * 10 + d) acc ≤ maxVal) :
    parseUintLoop maxVal (ds.map Nat.digitChar) acc =
      .ok (ds.foldl (fun a d => a * 10 + d) acc) := by
  induction ds generalizing acc with
  | nil => rfl
  | cons d ds ih =>
    obtain ⟨c1, c2, _, _⟩ := digitChar_spec d (hd d (by simp))
    have hge := foldl_digits_ge ds (acc * 10 + d)
    simp only [List.foldl_cons] at hv
    have hlt : acc * 10 + d < 2 ^ 64 := by omega
    have h10 : acc * 10 % 2 ^ 64 = acc * 10 := Nat.mod_eq_of_lt (by omega)
    have h1 : (acc * 10 + d) % 2 ^ 64 = acc * 10 + d := Nat.mod_eq_of_lt hlt
    have hcut : ¬ (acc ≥ maxUint64 / 10 + 1) := by
      simp only [maxUint64]
      omega
    simp only [List.map_cons, parseUintLoop, c1, Bool.not_true, Bool.false_eq_true, if_false,
      hcut, h10, c2, h1, List.foldl_cons]
    rw [if_neg (by omega)]
    exact ih _ (fun x hx => hd x (by simp [hx])) hv

theorem foldl_digits (n : Nat) :
    (Nat.digits 10 n).reverse.foldl (fun a d => a * 10 + d) 0 = n := by
  rw [List.foldl_reverse]
  conv_rhs => rw [← Nat.ofDigits_digits 10 n]
  rw [Nat.ofDigits_eq_foldr]
  congr 1
  funext d a
  simp
  omega

theorem Atoi_decimal (intSize n : Nat) (h1 : intSize ≤ 64) (h2 : n < 2 ^ (intSize - 1)) :
    Atoi intSize (decimal n) = .ok (n : Int) := by
  have hpow : 2 ^ intSize ≤ 2 ^ 64 := Nat.pow_le_pow_right (by omega) h1
  have hpos : 0 < 2 ^ (intSize - 1) := Nat.pos_pow_of_pos _ (by omega)
  have hmax : 2 ^ intSize - 1 < 2 ^ 64 := by
    have : 0 < 2 ^ intSize := Nat.pos_pow_of_pos _ (by omega)
    omega
  by_cases hn : n = 0
  · subst hn
    have hcut : ¬ (0 ≥ 2 ^ (intSize - 1)) := by omega
    simp [decimal, Atoi, ParseInt, ParseUint, parseUintLoop, isDigit, digitVal, maxUint64, hcut]
  · have hle : n ≤ 2 ^ intSize - 1 := by
      cases intSize with
      | zero => simp at h2; omega
      | succ k =>
        have : 2 ^ (k + 1) = 2 ^ k * 2 := Nat.pow_succ _ _
        simp only [Nat.add_sub_cancel] at h2
        omega
    have hds : ∀ d ∈ (Nat.digits 10 n).reverse, d < 10 := fun d hd =>
      Nat.digits_lt_base (by omega) (List.mem_reverse.mp hd)
    have hloop := parseUintLoop_digits (2 ^ intSize - 1) (Nat.digits 10 n).reverse 0 hds hmax
      (by rw [foldl_digits]; exact hle)
    rw [foldl_digits] at hloop
    have hne : (Nat.digits 10 n).reverse ≠ [] := by
      simpa using (Nat.digits_ne_nil_iff_ne_zero.mpr hn)
    simp only [decimal, hn, if_false]
    cases hL : (Nat.digits 10 n).reverse with
    | nil => exact absurd hL hne
    | cons d ds =>
      rw [hL] at hloop hds
      obtain ⟨_, _, c3, c4⟩ := digitChar_spec d (hds d (by simp))
      have hcut : ¬ (n ≥ 2 ^ (intSize - 1)) := by omega
      simp only [List.map_cons] at hloop ⊢
      simp [Atoi, ParseInt, ParseUint, c3, c4, hloop, hcut]
theorem Index_none (s : GoString) (sep : Char) (h : Index s sep = none) : sep ∉ s := by
  induction s with
  | nil => simp
  | cons c cs ih =>
    unfold Index at h
    by_cases hc : c = sep
    · simp [hc] at h
    · simp only [hc, if_false, Option.map_eq_none'] at h
      simp only [List.mem_cons, not_or]
      exact ⟨fun h2 => hc h2.symm, ih h⟩

theorem Index_some (s : GoString) (sep : Char) (m : Nat) (h : Index s sep = some m) :
    s = s.take m ++ sep :: s.drop (m + 1) ∧ sep ∉ s.take m := by
  induction s generalizing m with
  | nil => simp [Index] at h
  | cons c cs ih =>
    unfold Index at h
    by_cases hc : c = sep
    · simp only [hc, if_true, Option.some.injEq] at h
      subst h
      simp [hc]
    · simp only [hc, if_false, Option.map_eq_some'] at h
      obtain ⟨k, hk, rfl⟩ := h
      obtain ⟨h1, h2⟩ := ih k hk
      refine ⟨?_, ?_⟩
      · simp only [List.take_succ_cons, List.drop_succ_cons, List.cons_append]
        exact congrArg _ h1
      · simp only [List.take_succ_cons, List.mem_cons, not_or]
        exact ⟨fun h3 => hc h3.symm, h2⟩

theorem Count_eq_count (s : GoString) (sep : Char) : Count s sep = s.count sep := by
  induction s with
  | nil => rfl
  | cons c cs ih =>
    simp only [Count, ih, List.count_cons]
    by_cases hc : c = sep
    · simp [hc]
      omega
    · simp [hc]

theorem Join_cons (a : GoString) (rest : List GoString) (sep : Char) (h : rest ≠ []) :
    Join (a :: rest) sep = a ++ sep :: Join rest sep := by
  cases rest with
  | nil => exact absurd rfl h
  | cons b bs => rfl

theorem genSplitLoop_ne_nil (k : Nat) (s : GoString) (sep : Char) : genSplitLoop k s sep ≠ [] := by
  cases k with
  | zero => simp [genSplitLoop]
  | succ k =>
    unfold genSplitLoop
    split <;> simp

theorem genSplitLoop_spec (k : Nat) (s : GoString) (sep : Char) (h : s.count sep ≤ k) :
    (∀ e ∈ genSplitLoop k s sep, sep ∉ e) ∧
    (genSplitLoop k s sep).length = s.count sep + 1 ∧
    Join (genSplitLoop k s sep) sep = s := by
  induction k generalizing s with
  | zero =>
    have h0 : sep ∉ s := by
      intro hm
      have := List.count_pos_iff.mpr hm
      omega
    simp [genSplitLoop, Join, h0, List.count_eq_zero_of_not_mem h0]
  | succ k ih =>
    unfold genSplitLoop
    cases hi : Index s sep with
    | none =>
      have h0 := Index_none s sep hi
      simp [Join, h0, List.count_eq_zero_of_not_mem h0]
    | some m =>
      obtain ⟨h1, h2⟩ := Index_some s sep m hi
      have hc : s.count sep = (s.drop (m + 1)).count sep + 1 := by
        conv_lhs => rw [h1]
        simp [List.count_append, List.count_eq_zero_of_not_mem h2]
      obtain ⟨i1, i2, i3⟩ := ih (s.drop (m + 1)) (by omega)
      refine ⟨?_, ?_, ?_⟩
      · intro e he
        rcases List.mem_cons.mp he with rfl | he
        · exact h2
        · exact i1 e he
      · simp [i2, hc]
      · simp only []
        rw [Join_cons _ _ _ (genSplitLoop_ne_nil _ _ _), i3]
        exact h1.symm

theorem Split_spec (s : GoString) (sep : Char) :
    (∀ e ∈ Split s sep, sep ∉ e) ∧ (Split s sep).length = s.count sep + 1 ∧
    Join (Split s sep) sep = s := by
  have hle : s.count sep ≤ s.length := List.count_le_length _ _
  have hk : Split s sep = genSplitLoop (s.count sep) s sep := by
    simp only [Split, genSplit, Count_eq_count]
    have : ¬ (s.count sep + 1 > s.length + 1) := by omega
    simp [this]
  rw [hk]
  exact genSplitLoop_spec _ s sep (le_refl _)

/-! ### The invariant of the supervisor -/

theorem InvS_init (w : World) : InvS w State.init := by
  constructor <;> simp [State.init, MainPc.beforeReporter, MainPc.armed, MainPc.exitCode,
    MainPc.idx, Listener.make]

theorem InvS_stepMain (w : World) (s t : State) (h : InvS w s) (hc : s.exitCode = none)
    (ht : stepMain w s = some t) : InvS w t := by
  obtain ⟨h1, h2, h3, h4, h5, h6, h7, h8, h9, h10, h11, h12, h13, h14, h15⟩ := h
  obtain ⟨config, mainPc, reporterPc, callbackPc, listener, abortClosed, exitClosed, timer,
    reports, exitCode, log⟩ := s
  simp only [stepMain, lfStart, mRunnerStart] at ht
  cases mainPc <;> simp only [] at ht
  all_goals (try split at ht)
  all_goals (try cases ht)
  all_goals (constructor <;> simp_all [MainPc.beforeReporter, MainPc.armed, MainPc.exitCode,
    MainPc.idx, Listener.make, Listener.spawn, Listener.notifyWith])

theorem InvS_stepReporter (w : World) (s t : State) (b : Bool) (h : InvS w s)
    (ht : stepReporter s b = some t) : InvS w t := by
  have hns : s.reporterPc ≠ .notStarted := by
    intro h0
    simp [stepReporter, h0] at ht
  have hb : s.mainPc.beforeReporter = false := by
    cases hb : s.mainPc.beforeReporter
    · rfl
    · exact absurd (h.early hb).1 hns
  have hnr : s.reporterPc ≠ .returned := by
    intro h0
    simp [stepReporter, h0] at ht
  have hex : s.exitClosed = false := by
    cases hx : s.exitClosed
    · rfl
    · exact absurd (h.exitIff.mp hx) hnr
  have key : t.mainPc = s.mainPc ∧ t.listener = s.listener ∧ t.callbackPc = s.callbackPc ∧
      t.abortClosed = s.abortClosed ∧ t.exitCode = s.exitCode ∧ t.reporterPc ≠ .notStarted ∧
      (t.exitClosed = true ↔ t.reporterPc = .returned) ∧
      (t.reporterPc = .closeExit ∨ t.reporterPc = .returned → s.abortClosed = true) := by
    simp only [stepReporter, reportStatus] at ht
    cases hpc : s.reporterPc <;> simp only [hpc] at ht
    · cases ht
    · cases ht
      simp [hex]
    · cases b
      · simp only [Bool.false_eq_true, if_false] at ht
        split at ht
        · cases ht
          simp [hex]
        · cases ht
      · simp only [if_true] at ht
        split at ht
        · rename_i ha
          cases ht
          simp [hex, ha]
        · cases ht
    · cases ht
      simp [hex]
    · simp only [hex, Bool.false_eq_true, if_false] at ht
      cases ht
      have := h.observed (Or.inl hpc)
      simp [this]
    · cases ht
  obtain ⟨k1, k2, k3, k4, k5, k6, k7, k8⟩ := key
  exact
    { early := fun hm => by rw [k1, hb] at hm; cases hm
      spawnH := fun hm => by rw [k2, k3]; exact h.spawnH (k1 ▸ hm)
      started := fun _ => k6
      notif := fun hm => by rw [k2, k3, k4]; exact h.notif (k1 ▸ hm)
      armed := fun hm => by rw [k2]; exact h.armed (k1 ▸ hm)
      waiting := fun hm => by rw [k2, k3, k4]; exact h.waiting (k2 ▸ hm)
      inCallback := fun hm => by rw [k4]; exact h.inCallback (k3 ▸ hm)
      fired := fun hm => by rw [k2]; exact h.fired (k3 ▸ hm)
      closedAbort := fun hm => by rw [k2]; exact h.closedAbort (k4 ▸ hm)
      exitIff := k7
      observed := fun hm => by rw [k4]; exact k8 hm
      code := by rw [k5, k1]; exact h.code
      ret := fun hm => by
        have h1 := h.ret (k1 ▸ hm)
        rw [hex] at h1
        cases h1
      lfErr := fun hm => h.lfErr (k1 ▸ hm)
      lfOk := fun h1 h2 h3 => h.lfOk (k1 ▸ h1) (k1 ▸ h2) (k1 ▸ h3) }

theorem Listener.receive_some (l l1 : Listener) (sig : Signal)
    (h : l.receive = some (sig, l1)) :
    l.waiting = true ∧ l.sigChan = sig :: l1.sigChan ∧ l1.waiting = false ∧
    l1.notify = l.notify ∧ l1.calls = l.calls ++ [sig] := by
  obtain ⟨waiting, notify, sigChan, calls⟩ := l
  unfold Listener.receive at h
  cases waiting
  · simp at h
  · cases sigChan with
    | nil => simp at h
    | cons x xs =>
      simp only [if_true, Option.some.injEq, Prod.mk.injEq] at h
      obtain ⟨rfl, rfl⟩ := h
      simp

theorem InvS_not_armed (w : World) (s : State) (h : InvS w s) (hm : s.mainPc.armed = false) :
    s.listener.sigChan = [] ∧ s.listener.calls = [] ∧ s.listener.notify = none ∧
    s.callbackPc = .outside := by
  cases hb : s.mainPc.beforeReporter
  · cases hpc : s.mainPc <;> simp [hpc, MainPc.beforeReporter, MainPc.armed] at hb hm
    · obtain ⟨h1, h2⟩ := h.spawnH hpc
      simp [h1, h2, Listener.make]
    · obtain ⟨h1, h2, _⟩ := h.notif hpc
      simp [h1, h2, Listener.make, Listener.spawn]
  · obtain ⟨_, _, _, h1, h2⟩ := h.early hb
    simp [h1, h2, Listener.make]

theorem InvS_stepHandler (w : World) (s t : State) (h : InvS w s)
    (ht : stepHandler s = some t) : InvS w t := by
  have key : t.mainPc = s.mainPc ∧ t.reporterPc = s.reporterPc ∧ t.exitClosed = s.exitClosed ∧
      t.exitCode = s.exitCode ∧ s.mainPc.armed = true ∧ t.listener.notify = s.listener.notify ∧
      t.listener.waiting = false ∧ t.listener.calls ≠ [] ∧
      (t.callbackPc = .closeAbort → t.abortClosed = false) ∧
      (s.abortClosed = true → t.abortClosed = true) := by
    have harm : s.callbackPc ≠ .outside ∨ s.listener.sigChan ≠ [] → s.mainPc.armed = true := by
      intro h0
      cases ha : s.mainPc.armed
      · obtain ⟨a1, _, _, a4⟩ := InvS_not_armed w s h ha
        simp [a1, a4] at h0
      · rfl
    have hnw : s.callbackPc ≠ .outside → s.listener.waiting = false := by
      intro h0
      cases hw : s.listener.waiting
      · rfl
      · exact absurd (h.waiting hw).2.1 h0
    simp only [stepHandler, mRunnerStop] at ht
    cases hpc : s.callbackPc <;> simp only [hpc] at ht
    · cases hr : s.listener.receive with
      | none => simp [hr] at ht
      | some p =>
        obtain ⟨sig, l1⟩ := p
        simp only [hr, Option.some.injEq] at ht
        subst ht
        obtain ⟨r1, r2, r3, r4, r5⟩ := Listener.receive_some _ _ _ hr
        have hw := h.waiting r1
        simp [r3, r4, r5, hw.2.2, harm (Or.inr (by simp [r2]))]
    · have ha := h.inCallback hpc
      simp only [ha, Bool.false_eq_true, if_false, Option.some.injEq] at ht
      subst ht
      simp [hnw (by simp [hpc]), h.fired (by simp [hpc]), harm (Or.inl (by simp [hpc]))]
    · simp only [Option.some.injEq] at ht
      subst ht
      simp [hnw (by simp [hpc]), h.fired (by simp [hpc]), harm (Or.inl (by simp [hpc]))]
  obtain ⟨k1, k2, k3, k4, k5, k6, k7, k8, k9, k10⟩ := key
  have harm : t.mainPc.armed = true := k1 ▸ k5
  have hnb : t.mainPc.beforeReporter = false := by
    cases hpc : t.mainPc <;> simp [hpc, MainPc.armed, MainPc.beforeReporter] at harm ⊢
  exact
    { early := fun hm => by rw [hnb] at hm; cases hm
      spawnH := fun hm => by rw [hm] at harm; cases harm
      started := fun hm => by rw [k2]; exact h.started (k1 ▸ hm)
      notif := fun hm => by rw [hm] at harm; cases harm
      armed := fun hm => by rw [k6]; exact h.armed (k1 ▸ hm)
      waiting := fun hm => by rw [k7] at hm; cases hm
      inCallback := k9
      fired := fun _ => k8
      closedAbort := fun _ => k8
      exitIff := by rw [k2, k3]; exact h.exitIff
      observed := fun hm => k10 (h.observed (k2 ▸ hm))
      code := by rw [k4, k1]; exact h.code
      ret := fun hm => by rw [k3]; exact h.ret (k1 ▸ hm)
      lfErr := fun hm => h.lfErr (k1 ▸ hm)
      lfOk := fun h1 h2 h3 => h.lfOk (k1 ▸ h1) (k1 ▸ h2) (k1 ▸ h3) }

theorem Listener.deliver_fields (l : Listener) (sig : Signal) :
    (l.deliver sig).waiting = l.waiting ∧ (l.deliver sig).notify = l.notify ∧
    (l.deliver sig).calls = l.calls ∧
    (l.notify = none → l.deliver sig = l) := by
  unfold Listener.deliver
  split
  · rename_i hw
    refine ⟨rfl, rfl, rfl, fun hn => ?_⟩
    simp [Listener.wants, hn] at hw
  · exact ⟨rfl, rfl, rfl, fun _ => rfl⟩

theorem InvS_deliver (w : World) (s : State) (sig : Signal) (h : InvS w s) :
    InvS w { s with listener := s.listener.deliver sig } := by
  obtain ⟨d1, d2, d3, d4⟩ := Listener.deliver_fields s.listener sig
  have hna : s.mainPc.armed = false → s.listener.deliver sig = s.listener := fun ha =>
    d4 (InvS_not_armed w s h ha).2.2.1
  have hb : s.mainPc.beforeReporter = true → s.mainPc.armed = false := by
    intro hb
    cases hpc : s.mainPc <;> simp [hpc, MainPc.armed, MainPc.beforeReporter] at hb ⊢
  exact
    { early := fun hm => by
        have := h.early hm
        simp only [hna (hb hm)]
        exact this
      spawnH := fun hm => by
        have := h.spawnH hm
        simp only [hna (by rw [show s.mainPc = .spawnHandler from hm]; rfl)]
        exact this
      started := h.started
      notif := fun hm => by
        have := h.notif hm
        simp only [hna (by rw [show s.mainPc = .notify from hm]; rfl)]
        exact this
      armed := fun hm => by
        simp only [d2]
        exact h.armed hm
      waiting := fun hm => by
        simp only [d1] at hm
        simp only [d3]
        exact h.waiting hm
      inCallback := h.inCallback
      fired := fun hm => by
        simp only [d3]
        exact h.fired hm
      closedAbort := fun hm => by
        simp only [d3]
        exact h.closedAbort hm
      exitIff := h.exitIff
      observed := h.observed
      code := h.code
      ret := h.ret
      lfErr := h.lfErr
      lfOk := h.lfOk }

theorem InvS_tick (w : World) (s : State) (d : Nat) (h : InvS w s) :
    InvS w { s with timer := s.timer - d } := by
  obtain ⟨h1, h2, h3, h4, h5, h6, h7, h8, h9, h10, h11, h12, h13, h14, h15⟩ := h
  constructor <;> assumption

theorem step_some (w : World) (s t : State) (a : Action) (h : step w s a = some t) :
    s.exitCode = none ∧
    match a with
    | .main => stepMain w s = some t
    | .reporter b => stepReporter s b = some t
    | .handler => stepHandler s = some t
    | .deliver sig => t = { s with listener := s.listener.deliver sig }
    | .tick d => t = { s with timer := s.timer - d } := by
  unfold step at h
  split at h
  · cases h
  · rename_i hc
    simp only [Option.isSome_iff_ne_none, ne_eq, not_not] at hc
    refine ⟨hc, ?_⟩
    cases a with
    | main => exact h
    | reporter b => exact h
    | handler => exact h
    | deliver sig => cases h; rfl
    | tick d => cases h; rfl

theorem InvS_next (w : World) (s : State) (a : Action) (h : InvS w s) : InvS w (next w s a) := by
  unfold next
  cases hs : step w s a with
  | none => simpa using h
  | some t =>
    simp only [Option.getD_some]
    obtain ⟨hc, hk⟩ := step_some w s t a hs
    cases a with
    | main => exact InvS_stepMain w s t h hc hk
    | reporter b => exact InvS_stepReporter w s t b h hk
    | handler => exact InvS_stepHandler w s t h hk
    | deliver sig => rw [hk]; exact InvS_deliver w s sig h
    | tick d => rw [hk]; exact InvS_tick w s d h

theorem InvS_run (w : World) (s : State) (acts : List Action) (h : InvS w s) :
    InvS w (run w s acts) := by
  induction acts generalizing s with
  | nil => exact h
  | cons a acts ih => exact ih _ (InvS_next w s a h)

theorem InvS_exec (w : World) (acts : List Action) : InvS w (exec w acts) :=
  InvS_run w _ acts (InvS_init w)

theorem run_append (w : World) (s : State) (acts more : List Action) :
    run w s (acts ++ more) = run w (run w s acts) more := by
  simp [run, List.foldl_append]

theorem PrecededBy_snoc (log : List Event) (e : Event) (P Q : Event → Prop)
    (h : PrecededBy log P Q) (he : Q e → ∃ x ∈ log, P x) : PrecededBy (log ++ [e]) P Q := by
  intro pre post y heq hq
  rcases List.eq_nil_or_concat post with rfl | ⟨post1, z, rfl⟩
  · have h2 : log ++ [e] = pre ++ [y] := heq
    obtain ⟨h3, h4⟩ := List.append_inj' h2 rfl
    simp only [List.cons.injEq, and_true] at h4
    subst h3 h4
    exact he hq
  · have h2 : log ++ [e] = (pre ++ y :: post1) ++ [z] := by
      rw [heq]
      simp
    obtain ⟨h3, _⟩ := List.append_inj' h2 rfl
    exact h pre post1 y h3 hq

theorem InvL_init (w : World) : InvL w State.init := by
  constructor <;> simp [State.init, failLog, reporterTail, Listener.make, PrecededBy]

theorem InvL_exitEv (w : World) (s : State) (hs : InvS w s) (hl : InvL w s)
    (h : s.exitClosed = true) : Event.exitClosed ∈ s.log := by
  have h1 := hs.exitIff.mp h
  have h2 := hl.rep
  rw [h1] at h2
  have : Event.exitClosed ∈ s.log.filter Event.ofReporter := by
    rw [h2]
    simp [reporterTail]
  exact (List.mem_filter.mp this).1

theorem InvL_abortEv (w : World) (s : State) (hl : InvL w s)
    (h : s.abortClosed = true) : Event.abortClosed ∈ s.log := by
  have h1 := hl.abortCount
  simp only [h, if_true] at h1
  exact List.count_pos_iff.mp (by omega)

/-- A step that appends one event keeps the relations, given what the event is. -/
theorem InvL_append (w : World) (s t : State) (e : Event) (hl : InvL w s)
    (hlog : t.log = s.log ++ [e])
    (hfail : w.lfStartErr = true → failLog s.mainPc ++ [e] = failLog t.mainPc)
    (hcount : (if s.abortClosed = true then 1 else 0) + (if e = .abortClosed then 1 else 0) =
      if t.abortClosed = true then 1 else 0)
    (hpanic : e ≠ .panic)
    (hrep : List.replicate s.reports Event.report ++ reporterTail s.reporterPc ++
        (if e.ofReporter = true then [e] else []) =
      List.replicate t.reports .report ++ reporterTail t.reporterPc)
    (hcb : t.listener.calls ≠ [] → (∃ sig, Event.callback sig ∈ s.log) ∨ ∃ sig, e = .callback sig)
    (h1 : e = .mainReturned → Event.exitClosed ∈ s.log)
    (h2 : e = .exitClosed → Event.abortClosed ∈ s.log)
    (h3 : e = .abortClosed → ∃ sig, Event.callback sig ∈ s.log) : InvL w t := by
  refine ⟨?_, ?_, ?_, ?_, ?_, ?_, ?_, ?_⟩
  · intro hw
    rw [hlog, hl.fail hw]
    exact hfail hw
  · rw [hlog, List.count_append, hl.abortCount, ← hcount]
    by_cases he : e = .abortClosed
    · simp [he]
    · have : List.count Event.abortClosed [e] = 0 :=
        List.count_eq_zero_of_not_mem (by simpa using fun h => he h.symm)
      simp [he, this]
  · rw [hlog]
    simp only [List.mem_append, List.mem_singleton, not_or]
    exact ⟨hl.noPanic, fun h => hpanic h.symm⟩
  · rw [hlog, List.filter_append, hl.rep, ← hrep]
    by_cases he : e.ofReporter = true <;> simp [he]
  · intro hc
    rw [hlog]
    rcases hcb hc with ⟨sig, hsig⟩ | ⟨sig, hsig⟩
    · exact ⟨sig, by simp [hsig]⟩
    · exact ⟨sig, by simp [hsig]⟩
  · rw [hlog]
    exact PrecededBy_snoc _ _ _ _ hl.ord1 fun hq => ⟨_, h1 hq, rfl⟩
  · rw [hlog]
    exact PrecededBy_snoc _ _ _ _ hl.ord2 fun hq => ⟨_, h2 hq, rfl⟩
  · rw [hlog]
    refine PrecededBy_snoc _ _ _ _ hl.ord3 fun hq => ?_
    obtain ⟨sig, hsig⟩ := h3 hq
    exact ⟨_, hsig, sig, rfl⟩

/-- A step that appends no event keeps the relations. -/
theorem InvL_same (w : World) (s t : State) (hl : InvL w s)
    (hlog : t.log = s.log) (hpc : t.mainPc = s.mainPc) (ha : t.abortClosed = s.abortClosed)
    (hr : t.reports = s.reports) (hrt : reporterTail t.reporterPc = reporterTail s.reporterPc)
    (hc : t.listener.calls = s.listener.calls) : InvL w t := by
  refine ⟨?_, ?_, ?_, ?_, ?_, ?_, ?_, ?_⟩
  · rw [hlog, hpc]; exact hl.fail
  · rw [hlog, ha]; exact hl.abortCount
  · rw [hlog]; exact hl.noPanic
  · rw [hlog, hr, hrt]; exact hl.rep
  · rw [hlog, hc]; exact hl.cb
  · rw [hlog]; exact hl.ord1
  · rw [hlog]; exact hl.ord2
  · rw [hlog]; exact hl.ord3

theorem InvL_stepMain (w : World) (s t : State) (hs : InvS w s) (hl : InvL w s)
    (ht : stepMain w s = some t) : InvL w t := by
  have hok : s.mainPc.idx ≥ 2 → s.mainPc ≠ .fatalf → s.mainPc ≠ .terminated →
      ¬ (w.lfStartErr = true) := fun a b c => by simp [hs.lfOk a b c]
  simp only [stepMain, lfStart, mRunnerStart] at ht
  cases hpc : s.mainPc <;> simp only [hpc] at ht
  · cases ht
    refine InvL_append w s _ .configLoaded hl rfl ?_ ?_ ?_ ?_ ?_ ?_ ?_ ?_ <;>
      simp [hpc, failLog, Event.ofReporter]
    exact hl.cb
  · split at ht
    · cases ht
      refine InvL_append w s _ (.lfStart false) hl rfl ?_ ?_ ?_ ?_ ?_ ?_ ?_ ?_ <;>
        simp [hpc, failLog, Event.ofReporter]
      exact hl.cb
    · rename_i hw
      cases ht
      refine InvL_append w s _ (.lfStart true) hl rfl ?_ ?_ ?_ ?_ ?_ ?_ ?_ ?_ <;>
        simp [hpc, failLog, Event.ofReporter, hw]
      exact hl.cb
  · cases ht
    refine InvL_append w s _ .fatal hl rfl ?_ ?_ ?_ ?_ ?_ ?_ ?_ ?_ <;>
      simp [hpc, failLog, Event.ofReporter]
    exact hl.cb
  · have hw := hok (by simp [hpc, MainPc.idx]) (by simp [hpc]) (by simp [hpc])
    cases ht
    refine InvL_append w s _ .runnerCreated hl rfl ?_ ?_ ?_ ?_ ?_ ?_ ?_ ?_ <;>
      simp [hpc, failLog, Event.ofReporter, hw]
    exact hl.cb
  · have hw := hok (by simp [hpc, MainPc.idx]) (by simp [hpc]) (by simp [hpc])
    cases ht
    refine InvL_append w s _ (.runnerStart (!w.mStartErr)) hl rfl ?_ ?_ ?_ ?_ ?_ ?_ ?_ ?_ <;>
      simp [hpc, failLog, Event.ofReporter, hw]
    exact hl.cb
  · have hw := hok (by simp [hpc, MainPc.idx]) (by simp [hpc]) (by simp [hpc])
    obtain ⟨e1, e2, e3, e4, e5⟩ := hs.early (by simp [hpc, MainPc.beforeReporter])
    cases ht
    refine InvL_append w s _ .reporterSpawned hl rfl ?_ ?_ ?_ ?_ ?_ ?_ ?_ ?_ <;>
      simp [hpc, failLog, Event.ofReporter, hw, e1, e2, reporterTail]
    exact hl.cb
  · have hw := hok (by simp [hpc, MainPc.idx]) (by simp [hpc]) (by simp [hpc])
    cases ht
    refine InvL_append w s _ .handlerSpawned hl rfl ?_ ?_ ?_ ?_ ?_ ?_ ?_ ?_ <;>
      simp [hpc, failLog, Event.ofReporter, hw, Listener.make, Listener.spawn]
  · have hw := hok (by simp [hpc, MainPc.idx]) (by simp [hpc]) (by simp [hpc])
    obtain ⟨e1, e2, e3⟩ := hs.notif hpc
    cases ht
    refine InvL_append w s _ .notified hl rfl ?_ ?_ ?_ ?_ ?_ ?_ ?_ ?_ <;>
      simp [hpc, failLog, Event.ofReporter, hw, e1, Listener.make, Listener.spawn,
        Listener.notifyWith]
  · have hw := hok (by simp [hpc, MainPc.idx]) (by simp [hpc]) (by simp [hpc])
    split at ht
    · rename_i hx
      cases ht
      refine InvL_append w s _ .mainReturned hl rfl ?_ ?_ ?_ ?_ ?_ ?_ ?_ ?_ <;>
        simp [hpc, failLog, Event.ofReporter, hw]
      · exact hl.cb
      · exact InvL_exitEv w s hs hl hx
    · cases ht
  · cases ht
  · cases ht

theorem InvS_lfOk_of_started (w : World) (s : State) (hs : InvS w s)
    (h : s.mainPc.beforeReporter = false) : ¬ (w.lfStartErr = true) := by
  have : w.lfStartErr = false := by
    apply hs.lfOk <;>
      cases hpc : s.mainPc <;> simp [hpc, MainPc.beforeReporter, MainPc.idx] at h ⊢
  simp [this]

theorem InvL_stepReporter (w : World) (s t : State) (b : Bool) (hs : InvS w s) (hl : InvL w s)
    (ht : stepReporter s b = some t) : InvL w t := by
  have hns : s.reporterPc ≠ .notStarted := by
    intro h0
    simp [stepReporter, h0] at ht
  have hb : s.mainPc.beforeReporter = false := by
    cases hb : s.mainPc.beforeReporter
    · rfl
    · exact absurd (hs.early hb).1 hns
  have hw := InvS_lfOk_of_started w s hs hb
  simp only [stepReporter, reportStatus] at ht
  cases hpc : s.reporterPc <;> simp only [hpc] at ht
  · cases ht
  · cases ht
    exact InvL_same w s _ hl rfl rfl rfl rfl (by simp [hpc, reporterTail]) rfl
  · cases b
    · simp only [Bool.false_eq_true, if_false] at ht
      split at ht
      · cases ht
        exact InvL_same w s _ hl rfl rfl rfl rfl (by simp [hpc, reporterTail]) rfl
      · cases ht
    · simp only [if_true] at ht
      split at ht
      · cases ht
        refine InvL_append w s _ .abortObserved hl rfl ?_ ?_ ?_ ?_ ?_ ?_ ?_ ?_ <;>
          simp [hpc, Event.ofReporter, hw, reporterTail]
        exact hl.cb
      · cases ht
  · cases ht
    refine InvL_append w s _ .report hl rfl ?_ ?_ ?_ ?_ ?_ ?_ ?_ ?_ <;>
      simp [hpc, Event.ofReporter, hw, reporterTail, List.replicate_succ']
    exact hl.cb
  · have hx : s.exitClosed = false := by
      cases hx : s.exitClosed
      · rfl
      · have := hs.exitIff.mp hx
        rw [hpc] at this
        cases this
    simp only [hx, Bool.false_eq_true, if_false] at ht
    cases ht
    refine InvL_append w s _ .exitClosed hl rfl ?_ ?_ ?_ ?_ ?_ ?_ ?_ ?_ <;>
      simp [hpc, Event.ofReporter, hw, reporterTail]
    · exact hl.cb
    · exact InvL_abortEv w s hl (hs.observed (Or.inl hpc))
  · cases ht

theorem InvL_stepHandler (w : World) (s t : State) (hs : InvS w s) (hl : InvL w s)
    (ht : stepHandler s = some t) : InvL w t := by
  have harm : s.mainPc.armed = true := by
    cases ha : s.mainPc.armed
    · obtain ⟨a1, a2, a3, a4⟩ := InvS_not_armed w s hs ha
      simp only [stepHandler, mRunnerStop] at ht
      simp [a4, Listener.receive, a1] at ht
    · rfl
  have hb : s.mainPc.beforeReporter = false := by
    cases hpc : s.mainPc <;> simp [hpc, MainPc.armed, MainPc.beforeReporter] at harm ⊢
  have hw := InvS_lfOk_of_started w s hs hb
  simp only [stepHandler, mRunnerStop] at ht
  cases hpc : s.callbackPc <;> simp only [hpc] at ht
  · cases hr : s.listener.receive with
    | none => simp [hr] at ht
    | some p =>
      obtain ⟨sig, l1⟩ := p
      simp only [hr, Option.some.injEq] at ht
      subst ht
      refine InvL_append w s _ (.callback sig) hl rfl ?_ ?_ ?_ ?_ ?_ ?_ ?_ ?_ <;>
        simp [Event.ofReporter, hw]
  · have ha := hs.inCallback hpc
    simp only [ha, Bool.false_eq_true, if_false, Option.some.injEq] at ht
    subst ht
    refine InvL_append w s _ .abortClosed hl rfl ?_ ?_ ?_ ?_ ?_ ?_ ?_ ?_ <;>
      simp [Event.ofReporter, hw, ha]
    · exact hl.cb
    · exact hl.cb (hs.fired (by simp [hpc]))
  · simp only [Option.some.injEq] at ht
    subst ht
    refine InvL_append w s _ .runnerStopped hl rfl ?_ ?_ ?_ ?_ ?_ ?_ ?_ ?_ <;>
      simp [Event.ofReporter, hw]
    exact hl.cb

theorem InvL_next (w : World) (s : State) (a : Action) (hs : InvS w s) (hl : InvL w s) :
    InvL w (next w s a) := by
  unfold next
  cases hst : step w s a with
  | none => simpa using hl
  | some t =>
    simp only [Option.getD_some]
    obtain ⟨hc, hk⟩ := step_some w s t a hst
    cases a with
    | main => exact InvL_stepMain w s t hs hl hk
    | reporter b => exact InvL_stepReporter w s t b hs hl hk
    | handler => exact InvL_stepHandler w s t hs hl hk
    | deliver sig =>
      rw [hk]
      exact InvL_same w s _ hl rfl rfl rfl rfl rfl (Listener.deliver_fields _ _).2.2.1
    | tick d =>
      rw [hk]
      exact InvL_same w s _ hl rfl rfl rfl rfl rfl rfl

theorem Inv_run (w : World) (s : State) (acts : List Action) (hs : InvS w s) (hl : InvL w s) :
    InvS w (run w s acts) ∧ InvL w (run w s acts) := by
  induction acts generalizing s with
  | nil => exact ⟨hs, hl⟩
  | cons a acts ih => exact ih _ (InvS_next w s a hs) (InvL_next w s a hs hl)

theorem InvL_exec (w : World) (acts : List Action) : InvL w (exec w acts) :=
  (Inv_run w _ acts (InvS_init w) (InvL_init w)).2

/-! ### The signal listener -/

theorem Listener.run_snoc (l : Listener) (evs : List ListenerEvent) (e : ListenerEvent) :
    l.run (evs ++ [e]) = (l.run evs).next e := by
  simp [Listener.run, List.foldl_append]

theorem matching_snoc (signals : List Signal) (evs : List ListenerEvent) (e : ListenerEvent) :
    matching signals (evs ++ [e]) = matching signals evs ++ matching signals [e] := by
  simp [matching, List.filterMap_append]

theorem take_snoc_cap (m : List Signal) (sig : Signal) (k : Nat) :
    (m ++ [sig]).take k = if (m.take k).length < k then m.take k ++ [sig] else m.take k := by
  by_cases h : m.length < k
  · have h1 : m.take k = m := List.take_of_length_le (by omega)
    rw [h1, if_pos h]
    exact List.take_of_length_le (by simp; omega)
  · have h1 : (m.take k).length = k := by simp; omega
    rw [h1, if_neg (by omega)]
    exact List.take_append_of_le_length (by omega)

theorem matching_deliver (signals : List Signal) (sig : Signal) :
    matching signals [.deliver sig] =
      if (startSignalHandler signals).wants sig = true then [sig] else [] := by
  by_cases h : (startSignalHandler signals).wants sig = true <;>
    simp [matching, List.filterMap_cons, h]

theorem matching_goroutine (signals : List Signal) : matching signals [.goroutine] = [] := rfl

/-- While the goroutine waits, the buffer holds the first four matching signals;
afterwards the callback has been invoked once, with the first of them. -/
theorem Listener.run_inv (signals : List Signal) (evs : List ListenerEvent) :
    ((startSignalHandler signals).run evs).notify = some signals ∧
    (((startSignalHandler signals).run evs).waiting = true →
      ((startSignalHandler signals).run evs).calls = [] ∧
      ((startSignalHandler signals).run evs).sigChan = (matching signals evs).take sigChanCap) ∧
    (((startSignalHandler signals).run evs).waiting = false →
      ((startSignalHandler signals).run evs).calls = (matching signals evs).take 1 ∧
      matching signals evs ≠ []) := by
  induction evs using List.reverseRecOn with
  | nil => simp [Listener.run, startSignalHandler, Listener.make, Listener.spawn,
      Listener.notifyWith, matching]
  | append_singleton evs e ih =>
    rw [Listener.run_snoc, matching_snoc]
    generalize (startSignalHandler signals).run evs = l at ih
    generalize matching signals evs = m at ih
    obtain ⟨i1, i2, i3⟩ := ih
    obtain ⟨waiting, notify, sigChan, calls⟩ := l
    simp only [] at i1 i2 i3
    subst i1
    cases e with
    | deliver sig =>
      have hw : Listener.wants ⟨waiting, some signals, sigChan, calls⟩ sig =
          (startSignalHandler signals).wants sig := rfl
      rw [matching_deliver]
      simp only [Listener.next, Listener.deliver, hw]
      cases hwant : (startSignalHandler signals).wants sig
      · simpa using ⟨i2, i3⟩
      · simp only [Bool.true_and, if_true]
        cases waiting
        · obtain ⟨c1, c2⟩ := i3 rfl
          have hlen : 1 ≤ m.length := by
            cases m with
            | nil => exact absurd rfl c2
            | cons x xs => simp
          split <;> simp [c1, List.take_append_of_le_length hlen, c2]
        · obtain ⟨c1, c2⟩ := i2 rfl
          rw [take_snoc_cap, ← c2]
          simp only [decide_eq_true_eq]
          split <;> simp [c1]
    | goroutine =>
      rw [matching_goroutine, List.append_nil]
      simp only [Listener.next, Listener.receive]
      cases waiting
      · simpa using i3
      · obtain ⟨c1, c2⟩ := i2 rfl
        cases sigChan with
        | nil => exact ⟨rfl, fun _ => ⟨c1, c2⟩, fun hf => by cases hf⟩
        | cons x xs =>
          simp only [if_true]
          cases m with
          | nil => simp at c2
          | cons y ys =>
            simp only [sigChanCap, List.take_succ_cons, List.cons.injEq] at c2
            simp [c1, c2.1]

theorem Listener.calls_fixed (l : Listener) (evs : List ListenerEvent) (h : l.waiting = false) :
    (l.run evs).calls = l.calls ∧ (l.run evs).waiting = false := by
  induction evs generalizing l with
  | nil => exact ⟨rfl, h⟩
  | cons e evs ih =>
    have hn : (l.next e).calls = l.calls ∧ (l.next e).waiting = false := by
      cases e with
      | deliver sig =>
        obtain ⟨d1, _, d3, _⟩ := Listener.deliver_fields l sig
        exact ⟨d3, d1.trans h⟩
      | goroutine => simp [Listener.next, Listener.receive, h]
    obtain ⟨j1, j2⟩ := ih (l.next e) hn.2
    exact ⟨j1.trans hn.1, j2⟩

/-! ### Steps of the supervisor -/

theorem next_eq_of_ended (w : World) (s : State) (a : Action) (h : s.exitCode ≠ none) :
    next w s a = s := by
  unfold next step
  have : s.exitCode.isSome = true := Option.isSome_iff_ne_none.mpr h
  simp [this]

theorem stepMain_fields (w : World) (s t : State) (hs : InvS w s) (ht : stepMain w s = some t) :
    t.mainPc.idx = s.mainPc.idx + 1 ∧ (s.abortClosed = true → t.abortClosed = true) ∧
    ((phase s).rank ≤ (phase t).rank ∧ (phase t).rank ≤ (phase s).rank + 1) ∧
    s.log <+: t.log ∧ (s.mainPc = .mStart → Event.runnerStart (!w.mStartErr) ∈ t.log) := by
  obtain ⟨h1, h2, h3, h4, h5, h6, h7, h8, h9, h10, h11, h12, h13, h14, h15⟩ := hs
  obtain ⟨config, mainPc, reporterPc, callbackPc, listener, abortClosed, exitClosed, timer,
    reports, exitCode, log⟩ := s
  simp only [stepMain, lfStart, mRunnerStart] at ht
  cases mainPc <;> simp only [] at ht
  all_goals (try split at ht)
  all_goals (try cases ht)
  all_goals simp_all [MainPc.beforeReporter, MainPc.armed, MainPc.exitCode, MainPc.idx,
    Listener.make, Listener.spawn, Listener.notifyWith, phase, Phase.rank]

theorem stepMain_enabled (w : World) (s : State) (hs : InvS w s)
    (h : s.mainPc.idx < if w.lfStartErr = true then 3 else 7) :
    s.exitCode = none ∧ ∃ t, stepMain w s = some t := by
  have hc := hs.code
  have he := hs.lfErr
  have ho := hs.lfOk
  cases hw : w.lfStartErr <;> simp only [hw, Bool.false_eq_true, if_false, if_true] at h <;>
    cases hpc : s.mainPc <;>
    simp_all [MainPc.idx, MainPc.exitCode, stepMain, lfStart]

theorem stepReporter_frame (w : World) (s t : State) (b : Bool) (hs : InvS w s)
    (ht : stepReporter s b = some t) :
    t.mainPc = s.mainPc ∧ t.listener = s.listener ∧ t.abortClosed = s.abortClosed ∧
    t.exitCode = s.exitCode ∧ s.log <+: t.log := by
  simp only [stepReporter, reportStatus] at ht
  cases hpc : s.reporterPc <;> simp only [hpc] at ht
  · cases ht
  · cases ht
    simp
  · cases b
    · simp only [Bool.false_eq_true, if_false] at ht
      split at ht
      · cases ht
        simp
      · cases ht
    · simp only [if_true] at ht
      split at ht
      · cases ht
        simp
      · cases ht
  · cases ht
    simp
  · have hx : s.exitClosed = false := by
      cases hx : s.exitClosed
      · rfl
      · have := hs.exitIff.mp hx
        rw [hpc] at this
        cases this
    simp only [hx, Bool.false_eq_true, if_false] at ht
    cases ht
    simp
  · cases ht

theorem stepHandler_frame (w : World) (s t : State) (hs : InvS w s)
    (ht : stepHandler s = some t) :
    t.mainPc = s.mainPc ∧ t.exitCode = s.exitCode ∧ (s.abortClosed = true → t.abortClosed = true) ∧
    s.mainPc.armed = true ∧ t.listener.calls ≠ [] ∧ s.log <+: t.log := by
  have harm : s.mainPc.armed = true := by
    cases ha : s.mainPc.armed
    · obtain ⟨a1, a2, a3, a4⟩ := InvS_not_armed w s hs ha
      simp only [stepHandler, mRunnerStop] at ht
      simp [a4, Listener.receive, a1] at ht
    · rfl
  simp only [stepHandler, mRunnerStop] at ht
  cases hpc : s.callbackPc <;> simp only [hpc] at ht
  · cases hr : s.listener.receive with
    | none => simp [hr] at ht
    | some p =>
      obtain ⟨sig, l1⟩ := p
      simp only [hr, Option.some.injEq] at ht
      subst ht
      obtain ⟨r1, r2, r3, r4, r5⟩ := Listener.receive_some _ _ _ hr
      simp [r5, harm]
  · have ha := hs.inCallback hpc
    simp only [ha, Bool.false_eq_true, if_false, Option.some.injEq] at ht
    subst ht
    simp [hs.fired (by simp [hpc]), harm]
  · simp only [Option.some.injEq] at ht
    subst ht
    simp [hs.fired (by simp [hpc]), harm]

theorem next_idx (w : World) (s : State) (a : Action) (hs : InvS w s) :
    s.mainPc.idx ≤ (next w s a).mainPc.idx := by
  unfold next
  cases hst : step w s a with
  | none => simp
  | some t =>
    simp only [Option.getD_some]
    obtain ⟨hc, hk⟩ := step_some w s t a hst
    cases a with
    | main =>
      have := (stepMain_fields w s t hs hk).1
      omega
    | reporter b => rw [(stepReporter_frame w s t b hs hk).1]
    | handler => rw [(stepHandler_frame w s t hs hk).1]
    | deliver sig => rw [hk]
    | tick d => rw [hk]

theorem next_abortClosed (w : World) (s : State) (a : Action) (hs : InvS w s)
    (h : s.abortClosed = true) : (next w s a).abortClosed = true := by
  unfold next
  cases hst : step w s a with
  | none => simpa using h
  | some t =>
    simp only [Option.getD_some]
    obtain ⟨hc, hk⟩ := step_some w s t a hst
    cases a with
    | main => exact (stepMain_fields w s t hs hk).2.1 h
    | reporter b => rw [(stepReporter_frame w s t b hs hk).2.2.1]; exact h
    | handler => exact (stepHandler_frame w s t hs hk).2.2.1 h
    | deliver sig => rw [hk]; exact h
    | tick d => rw [hk]; exact h

theorem run_abortClosed (w : World) (s : State) (acts : List Action) (hs : InvS w s)
    (h : s.abortClosed = true) : (run w s acts).abortClosed = true := by
  induction acts generalizing s with
  | nil => exact h
  | cons a acts ih => exact ih _ (InvS_next w s a hs) (next_abortClosed w s a hs h)

theorem phase_congr (s t : State) (h1 : t.mainPc = s.mainPc)
    (h2 : t.listener.calls = s.listener.calls) : phase t = phase s := by
  simp [phase, h1, h2]

theorem next_phase (w : World) (s : State) (a : Action) (hs : InvS w s) :
    (phase s).rank ≤ (phase (next w s a)).rank ∧
    (phase (next w s a)).rank ≤ (phase s).rank + 1 := by
  unfold next
  cases hst : step w s a with
  | none => simp
  | some t =>
    simp only [Option.getD_some]
    obtain ⟨hc, hk⟩ := step_some w s t a hst
    cases a with
    | main => exact (stepMain_fields w s t hs hk).2.2.1
    | reporter b =>
      obtain ⟨f1, f2, _, _⟩ := stepReporter_frame w s t b hs hk
      rw [phase_congr s t f1 (by rw [f2])]
      simp
    | handler =>
      obtain ⟨f1, f2, _, f4, f5, _⟩ := stepHandler_frame w s t hs hk
      have hne : s.mainPc ≠ .returned := by
        intro h0
        have := hs.code
        rw [hc, h0] at this
        cases this
      have hw : s.mainPc = .waitExit := by
        cases hpc : s.mainPc <;> simp [hpc, MainPc.armed] at f4 hne ⊢
      have ht : phase t = .shuttingDown := by
        simp [phase, f1, hw, f5]
      rw [ht]
      by_cases hcalls : s.listener.calls = [] <;> simp [phase, hw, hcalls, Phase.rank]
    | deliver sig =>
      have : phase t = phase s := by
        rw [hk]
        exact phase_congr s _ rfl (Listener.deliver_fields _ _).2.2.1
      rw [this]
      exact ⟨le_refl _, Nat.le_succ _⟩
    | tick d =>
      have : phase t = phase s := by
        rw [hk]
        exact phase_congr s _ rfl rfl
      rw [this]
      exact ⟨le_refl _, Nat.le_succ _⟩

/-- Statements of `main` are never skipped and never wait for another goroutine
before the final receive: after `k` turns of `main`, at least `k` statements
have been performed, up to the point where `main` ends or blocks. -/
theorem run_idx (w : World) (s : State) (acts : List Action) (hs : InvS w s) :
    min (s.mainPc.idx + acts.count .main) (if w.lfStartErr = true then 3 else 7) ≤
      (run w s acts).mainPc.idx := by
  induction acts generalizing s with
  | nil => simp [run]
  | cons a acts ih =>
    have ih1 := ih (next w s a) (InvS_next w s a hs)
    have hmono := next_idx w s a hs
    have hrun : run w s (a :: acts) = run w (next w s a) acts := rfl
    rw [hrun]
    by_cases ha : a = .main
    · subst ha
      simp only [List.count_cons_self]
      by_cases hlt : s.mainPc.idx < if w.lfStartErr = true then 3 else 7
      · obtain ⟨hc, t, ht⟩ := stepMain_enabled w s hs hlt
        have hn : next w s .main = t := by
          unfold next step
          simp [hc, ht]
        have := (stepMain_fields w s t hs ht).1
        rw [hn] at ih1 ⊢
        omega
      · omega
    · have : List.count Action.main (a :: acts) = List.count Action.main acts := by
        rw [List.count_cons]
        simp
        exact fun h => ha h
      rw [this]
      omega

theorem exec_idx (w : World) (acts : List Action) :
    min (acts.count .main) (if w.lfStartErr = true then 3 else 7) ≤ (exec w acts).mainPc.idx := by
  have := run_idx w State.init acts (InvS_init w)
  simpa [State.init, MainPc.idx] using this

theorem next_runnerStart (w : World) (s : State) (a : Action) (hs : InvS w s)
    (h : 4 ≤ s.mainPc.idx → Event.runnerStart (!w.mStartErr) ∈ s.log) :
    4 ≤ (next w s a).mainPc.idx → Event.runnerStart (!w.mStartErr) ∈ (next w s a).log := by
  unfold next
  cases hst : step w s a with
  | none => simpa using h
  | some t =>
    simp only [Option.getD_some]
    obtain ⟨hc, hk⟩ := step_some w s t a hst
    cases a with
    | main =>
      obtain ⟨f1, _, _, f4, f5⟩ := stepMain_fields w s t hs hk
      intro h4
      by_cases hm : s.mainPc = .mStart
      · exact f5 hm
      · have h3 : 3 ≤ s.mainPc.idx := by omega
        have : 4 ≤ s.mainPc.idx := by
          cases hpc : s.mainPc <;> simp [hpc, MainPc.idx, stepMain] at hm h3 hk ⊢
        exact f4.subset (h this)
    | reporter b =>
      obtain ⟨f1, _, _, _, f5⟩ := stepReporter_frame w s t b hs hk
      rw [f1]
      exact fun h4 => f5.subset (h h4)
    | handler =>
      obtain ⟨f1, _, _, _, _, f6⟩ := stepHandler_frame w s t hs hk
      rw [f1]
      exact fun h4 => f6.subset (h h4)
    | deliver sig => rw [hk]; exact h
    | tick d => rw [hk]; exact h

theorem run_runnerStart (w : World) (s : State) (acts : List Action) (hs : InvS w s)
    (h : 4 ≤ s.mainPc.idx → Event.runnerStart (!w.mStartErr) ∈ s.log) :
    4 ≤ (run w s acts).mainPc.idx → Event.runnerStart (!w.mStartErr) ∈ (run w s acts).log := by
  induction acts generalizing s with
  | nil => exact h
  | cons a acts ih => exact ih _ (InvS_next w s a hs) (next_runnerStart w s a hs h)

theorem forget_next (w1 w2 : World) (h1 : w1.intSize = w2.intSize) (h2 : w1.env = w2.env)
    (h3 : w1.lfStartErr = w2.lfStartErr) (s1 s2 : State) (a : Action)
    (h : forgetRunnerStart s1 = forgetRunnerStart s2) :
    forgetRunnerStart (next w1 s1 a) = forgetRunnerStart (next w2 s2 a) := by
  obtain ⟨config, mainPc, reporterPc, callbackPc, listener, abortClosed, exitClosed, timer,
    reports, exitCode, log⟩ := s1
  obtain ⟨config2, mainPc2, reporterPc2, callbackPc2, listener2, abortClosed2, exitClosed2,
    timer2, reports2, exitCode2, log2⟩ := s2
  simp only [forgetRunnerStart, State.mk.injEq] at h
  obtain ⟨rfl, rfl, rfl, rfl, rfl, rfl, rfl, rfl, rfl, rfl, hlog⟩ := h
  unfold next step
  cases exitCode with
  | some c => simpa [forgetRunnerStart] using hlog
  | none =>
    simp only [Option.isSome_none, Bool.false_eq_true, if_false]
    cases a with
    | main =>
      simp only [stepMain, lfStart, mRunnerStart]
      cases mainPc <;> simp only [] <;> (try split) <;>
        simp_all [forgetRunnerStart, Event.forgetStart]
    | reporter b =>
      simp only [stepReporter, reportStatus]
      cases reporterPc <;> simp only [] <;> (try split) <;> (try split) <;>
        simp_all [forgetRunnerStart, Event.forgetStart, State.panic]
    | handler =>
      simp only [stepHandler, mRunnerStop]
      cases callbackPc <;> simp only [] <;> (try split) <;>
        simp_all [forgetRunnerStart, Event.forgetStart, State.panic]
    | deliver sig => simpa [forgetRunnerStart] using hlog
    | tick d => simpa [forgetRunnerStart] using hlog

theorem forget_run (w1 w2 : World) (h1 : w1.intSize = w2.intSize) (h2 : w1.env = w2.env)
    (h3 : w1.lfStartErr = w2.lfStartErr) (s1 s2 : State) (acts : List Action)
    (h : forgetRunnerStart s1 = forgetRunnerStart s2) :
    forgetRunnerStart (run w1 s1 acts) = forgetRunnerStart (run w2 s2 acts) := by
  induction acts generalizing s1 s2 with
  | nil => exact h
  | cons a acts ih => exact ih _ _ (forget_next w1 w2 h1 h2 h3 s1 s2 a h)

/-! ### The signal goroutine stays live -/

theorem InvH_init (w : World) : InvH w State.init := by
  constructor <;> simp [State.init, MainPc.armed, Listener.make]

theorem InvH_stepMain (w : World) (s t : State) (hs : InvS w s) (hh : InvH w s)
    (ht : stepMain w s = some t) : InvH w t := by
  obtain ⟨h1, h2, h3, h4, h5, h6, h7, h8, h9, h10, h11, h12, h13, h14, h15⟩ := hs
  obtain ⟨g1, g2⟩ := hh
  obtain ⟨config, mainPc, reporterPc, callbackPc, listener, abortClosed, exitClosed, timer,
    reports, exitCode, log⟩ := s
  simp only [stepMain, lfStart, mRunnerStart] at ht
  cases mainPc <;> simp only [] at ht
  all_goals (try split at ht)
  all_goals (try cases ht)
  all_goals (constructor <;> simp_all [MainPc.beforeReporter, MainPc.armed, Listener.make,
    Listener.spawn, Listener.notifyWith])

theorem stepReporter_callbackPc (s t : State) (b : Bool) (ht : stepReporter s b = some t) :
    t.callbackPc = s.callbackPc := by
  simp only [stepReporter, reportStatus] at ht
  cases hpc : s.reporterPc <;> simp only [hpc] at ht
  · cases ht
  · cases ht
    rfl
  · cases b
    · simp only [Bool.false_eq_true, if_false] at ht
      split at ht
      · cases ht
        rfl
      · cases ht
    · simp only [if_true] at ht
      split at ht
      · cases ht
        rfl
      · cases ht
  · cases ht
    rfl
  · split at ht
    · cases ht
      rfl
    · cases ht
      rfl
  · cases ht

theorem stepHandler_closing (w : World) (s t : State) (hs : InvS w s) (hh : InvH w s)
    (ht : stepHandler s = some t) : t.callbackPc = .closeAbort ∨ t.abortClosed = true := by
  simp only [stepHandler, mRunnerStop] at ht
  cases hpc : s.callbackPc <;> simp only [hpc] at ht
  · cases hr : s.listener.receive with
    | none => simp [hr] at ht
    | some p =>
      obtain ⟨sig, l1⟩ := p
      simp only [hr, Option.some.injEq] at ht
      subst ht
      exact Or.inl rfl
  · have ha := hs.inCallback hpc
    simp only [ha, Bool.false_eq_true, if_false, Option.some.injEq] at ht
    subst ht
    exact Or.inr rfl
  · simp only [Option.some.injEq] at ht
    subst ht
    rcases hh.closing (hs.fired (by simp [hpc])) with h | h
    · rw [hpc] at h
      cases h
    · exact Or.inr h

theorem InvH_next (w : World) (s : State) (a : Action) (hs : InvS w s) (hh : InvH w s) :
    InvH w (next w s a) := by
  unfold next
  cases hst : step w s a with
  | none => simpa using hh
  | some t =>
    simp only [Option.getD_some]
    obtain ⟨hc, hk⟩ := step_some w s t a hst
    cases a with
    | main => exact InvH_stepMain w s t hs hh hk
    | reporter b =>
      obtain ⟨f1, f2, f3, _⟩ := stepReporter_frame w s t b hs hk
      have f4 := stepReporter_callbackPc s t b hk
      exact ⟨fun ha hw => by rw [f2]; exact hh.live (f1 ▸ ha) (f2 ▸ hw),
        fun hcalls => by rw [f4, f3]; exact hh.closing (f2 ▸ hcalls)⟩
    | handler =>
      obtain ⟨_, _, _, _, f5, _⟩ := stepHandler_frame w s t hs hk
      exact ⟨fun _ _ => f5, fun _ => stepHandler_closing w s t hs hh hk⟩
    | deliver sig =>
      rw [hk]
      obtain ⟨d1, _, d3, _⟩ := Listener.deliver_fields s.listener sig
      exact ⟨fun ha hw => by
          simp only [d3]
          exact hh.live ha (by simpa only [d1] using hw),
        fun hcalls => hh.closing (by simpa only [d3] using hcalls)⟩
    | tick d =>
      rw [hk]
      exact ⟨hh.live, hh.closing⟩

theorem InvH_exec (w : World) (acts : List Action) : InvH w (exec w acts) := by
  have : ∀ (s : State), InvS w s → InvH w s → InvH w (run w s acts) := by
    induction acts with
    | nil => exact fun s _ hh => hh
    | cons a acts ih =>
      exact fun s hs hh => ih _ (InvS_next w s a hs) (InvH_next w s a hs hh)
  exact this _ (InvS_init w) (InvH_init w)

theorem Listener.deliver_armed (l : Listener) (sig : Signal)
    (hn : l.notify = some [Interrupt, SIGTERM, SIGQUIT])
    (hsig : sig ∈ [Interrupt, SIGTERM, SIGQUIT]) :
    (l.deliver sig).sigChan ≠ [] ∧ (l.sigChan = [] → (l.deliver sig).sigChan = [sig]) := by
  have hw : l.wants sig = true := by
    simp only [Listener.wants, hn]
    exact decide_eq_true hsig
  unfold Listener.deliver
  by_cases hlen : l.sigChan.length < sigChanCap
  · simp only [hw, hlen, decide_True, Bool.and_self, if_true]
    exact ⟨by simp, fun h0 => by simp [h0]⟩
  · simp only [hw, hlen, decide_False, Bool.and_false, Bool.false_eq_true, if_false]
    have hne : l.sigChan ≠ [] := by
      intro h0
      rw [h0] at hlen
      exact hlen (by decide)
    exact ⟨hne, fun h0 => absurd h0 hne⟩

theorem next_deliver (w : World) (s : State) (sig : Signal) (hc : s.exitCode = none) :
    next w s (.deliver sig) = { s with listener := s.listener.deliver sig } := by
  simp [next, step, hc]

theorem next_handler_receive (w : World) (s : State) (hc : s.exitCode = none)
    (hcb : s.callbackPc = .outside) (hw : s.listener.waiting = true)
    (x : Signal) (rest : List Signal) (hch : s.listener.sigChan = x :: rest) :
    (next w s .handler).exitCode = none ∧ (next w s .handler).callbackPc = .closeAbort ∧
    (next w s .handler).abortClosed = s.abortClosed ∧
    (next w s .handler).listener.calls = s.listener.calls ++ [x] := by
  simp [next, step, stepHandler, Listener.receive, hc, hcb, hw, hch]

theorem next_handler_close (w : World) (s : State) (hc : s.exitCode = none)
    (hcb : s.callbackPc = .closeAbort) (ha : s.abortClosed = false) :
    (next w s .handler).abortClosed = true := by
  simp [next, step, stepHandler, hc, hcb, ha]

theorem armed_alive (w : World) (s : State) (hs : InvS w s) (harm : s.mainPc.armed = true)
    (ha : s.abortClosed = false) : s.exitCode = none := by
  have hx : s.exitClosed = false := by
    cases hx : s.exitClosed
    · rfl
    · have := hs.observed (Or.inr (hs.exitIff.mp hx))
      rw [ha] at this
      cases this
  have hret := hs.ret
  rw [hs.code]
  cases hpc : s.mainPc <;> simp [hpc, MainPc.armed, MainPc.exitCode, hx] at harm hret ⊢

/-- Once the listener is armed, one of the three signals followed by two turns of
the signal goroutine leaves the abort channel closed. -/
theorem signal_closes_abort (w : World) (s : State) (sig : Signal) (hs : InvS w s)
    (hh : InvH w s) (harm : s.mainPc.armed = true)
    (hsig : sig ∈ [Interrupt, SIGTERM, SIGQUIT]) :
    (run w s [.deliver sig, .handler, .handler]).abortClosed = true := by
  cases ha : s.abortClosed
  · have hc := armed_alive w s hs harm ha
    have hrun : run w s [.deliver sig, .handler, .handler] =
        next w (next w (next w s (.deliver sig)) .handler) .handler := rfl
    rw [hrun, next_deliver w s sig hc]
    obtain ⟨d1, _, d3, _⟩ := Listener.deliver_fields s.listener sig
    obtain ⟨d5, _⟩ := Listener.deliver_armed s.listener sig (hs.armed harm) hsig
    by_cases hcalls : s.listener.calls = []
    · have hw : s.listener.waiting = true := by
        cases hw : s.listener.waiting
        · exact absurd hcalls (hh.live harm hw)
        · rfl
      have hcb := (hs.waiting hw).2.1
      cases hch : (s.listener.deliver sig).sigChan with
      | nil => exact absurd hch d5
      | cons x rest =>
        obtain ⟨r1, r2, r3, _⟩ := next_handler_receive w
          { s with listener := s.listener.deliver sig } hc hcb (d1.trans hw) x rest hch
        exact next_handler_close w _ r1 r2 (r3.trans ha)
    · rcases hh.closing hcalls with hcb | hcl
      · have h1 := next_handler_close w { s with listener := s.listener.deliver sig } hc hcb ha
        have hs1 : InvS w (next w { s with listener := s.listener.deliver sig } .handler) :=
          InvS_next w _ _ (InvS_deliver w s sig hs)
        exact next_abortClosed w _ _ hs1 h1
      · rw [ha] at hcl
        cases hcl
  · exact run_abortClosed w s _ hs ha

/-- A signal delivered while the signal goroutine waits on the empty channel is the
one the callback is invoked with at the next turn of the goroutine. -/
theorem signal_reaches_callback (w : World) (s : State) (sig : Signal) (hs : InvS w s)
    (harm : s.mainPc.armed = true) (hsig : sig ∈ [Interrupt, SIGTERM, SIGQUIT])
    (hw : s.listener.waiting = true) (hch : s.listener.sigChan = []) :
    (run w s [.deliver sig, .handler]).listener.calls = [sig] := by
  obtain ⟨w1, w2, w3⟩ := hs.waiting hw
  have hc := armed_alive w s hs harm w3
  have hrun : run w s [.deliver sig, .handler] = next w (next w s (.deliver sig)) .handler := rfl
  rw [hrun, next_deliver w s sig hc]
  obtain ⟨d1, _, d3, _⟩ := Listener.deliver_fields s.listener sig
  obtain ⟨_, d6⟩ := Listener.deliver_armed s.listener sig (hs.armed harm) hsig
  obtain ⟨_, _, _, r4⟩ := next_handler_receive w
    { s with listener := s.listener.deliver sig } hc w2 (d1.trans hw) sig [] (d6 hch)
  rw [r4]
  simp only [d3, w1, List.nil_append]

/-! ### Configuration: the claims -/

/-- C1, as stated, fails: on a 64-bit platform `STATUS_INTERVAL=9223372037` is a
positive integer that `strconv.Atoi` accepts, yet the product with `time.Second`
wraps around and `config.StatusInterval` is negative, not 9223372037 seconds. -/
theorem loadConfig_interval_wraps :
    Atoi 64 "9223372037".toList = .ok 9223372037 ∧
    (loadConfig 64 (envOf [("STATUS_INTERVAL", "9223372037")])).StatusInterval =
      -9223372036709551616 ∧
    (loadConfig 64 (envOf [("STATUS_INTERVAL", "9223372037")])).StatusInterval ≠
      9223372037 * 1000000000 :=
  ⟨rfl, by decide, by decide⟩

/-- C1, amended: when `STATUS_INTERVAL` (respectively `METRICS_INTERVAL`) holds a
positive integer `n` that `strconv.Atoi` accepts and `n` is at most 9223372036,
the largest number of whole seconds an `int64` duration holds, `loadConfig` sets
`config.StatusInterval` (respectively `config.MetricsInterval`) to exactly
`n * 1_000_000_000` nanoseconds, a value below `2^63`; and `Atoi` accepts the
decimal numeral of every such `n` that fits `int`. -/
theorem loadConfig_interval_valid (intSize : Nat) (env : Env) (n : Int)
    (hpos : 0 < n) (hle : n ≤ 9223372036) :
    (Atoi intSize (env "STATUS_INTERVAL") = .ok n →
      (loadConfig intSize env).StatusInterval = n * 1000000000) ∧
    (Atoi intSize (env "METRICS_INTERVAL") = .ok n →
      (loadConfig intSize env).MetricsInterval = n * 1000000000) ∧
    n * 1000000000 < 2 ^ 63 ∧
    (intSize ≤ 64 → n.toNat < 2 ^ (intSize - 1) → Atoi intSize (decimal n.toNat) = .ok n) := by
  refine ⟨fun h => ?_, fun h => ?_, by omega, fun h1 h2 => ?_⟩
  rotate_right
  · have := Atoi_decimal intSize n.toNat h1 h2
    rwa [Int.toNat_of_nonneg (by omega)] at this
  · show parseInterval intSize (env "STATUS_INTERVAL") = _
    rw [parseInterval_ok _ _ _ h]
    exact secondsToDuration_of_range n (by omega) hle
  · show parseInterval intSize (env "METRICS_INTERVAL") = _
    rw [parseInterval_ok _ _ _ h]
    exact secondsToDuration_of_range n (by omega) hle

/-- C1, amended, at the largest interval: 9223372036 seconds. -/
theorem loadConfig_interval_valid_witness :
    (0 : Int) < 9223372036 ∧
    Atoi 64 (envOf [("STATUS_INTERVAL", "9223372036")] "STATUS_INTERVAL") = .ok 9223372036 ∧
    (loadConfig 64 (envOf [("STATUS_INTERVAL", "9223372036")])).StatusInterval =
      9223372036 * 1000000000 :=
  ⟨by decide, rfl,
    (loadConfig_interval_valid 64 (envOf [("STATUS_INTERVAL", "9223372036")]) 9223372036
      (by decide) (by decide)).1 rfl⟩

/-- C2, as stated, fails: `STATUS_INTERVAL=0` and `METRICS_INTERVAL=-5` are integers
that are not positive, yet `loadConfig` keeps them (0 and -5 seconds) instead of
the default of 60 seconds. -/
theorem loadConfig_interval_nonpositive_kept :
    (loadConfig 64 (envOf [("STATUS_INTERVAL", "0")])).StatusInterval = 0 ∧
    (loadConfig 64 (envOf [("STATUS_INTERVAL", "0")])).StatusInterval ≠ 60 * 1000000000 ∧
    (loadConfig 64 (envOf [("METRICS_INTERVAL", "-5")])).MetricsInterval = -5000000000 ∧
    (loadConfig 64 (envOf [("METRICS_INTERVAL", "-5")])).MetricsInterval ≠ 60 * 1000000000 := by
  decide

/-- What `loadConfig` does with an integer that is zero or negative (down to
-9223372036): it is kept as that number of seconds. -/
theorem loadConfig_interval_nonpositive (intSize : Nat) (env : Env) (n : Int)
    (h1 : n ≤ 0) (h2 : -9223372036 ≤ n) :
    (Atoi intSize (env "STATUS_INTERVAL") = .ok n →
      (loadConfig intSize env).StatusInterval = n * 1000000000) ∧
    (Atoi intSize (env "METRICS_INTERVAL") = .ok n →
      (loadConfig intSize env).MetricsInterval = n * 1000000000) := by
  refine ⟨fun h => ?_, fun h => ?_⟩
  · show parseInterval intSize (env "STATUS_INTERVAL") = _
    rw [parseInterval_ok _ _ _ h]
    exact secondsToDuration_of_range n h2 (by omega)
  · show parseInterval intSize (env "METRICS_INTERVAL") = _
    rw [parseInterval_ok _ _ _ h]
    exact secondsToDuration_of_range n h2 (by omega)

/-- C2, amended: for every `STATUS_INTERVAL` (respectively `METRICS_INTERVAL`) value
that `strconv.Atoi` rejects, which includes the missing or empty value and every
value with a character that is not a digit after the optional sign, `loadConfig`
sets `config.StatusInterval` (respectively `config.MetricsInterval`) to 60 seconds;
and `loadConfig` returns, so that `main` goes on to `lf.Start`. -/
theorem loadConfig_interval_default (w : World) :
    (∀ e, Atoi w.intSize (w.env "STATUS_INTERVAL") = .error e →
      (loadConfig w.intSize w.env).StatusInterval = 60 * 1000000000) ∧
    (∀ e, Atoi w.intSize (w.env "METRICS_INTERVAL") = .error e →
      (loadConfig w.intSize w.env).MetricsInterval = 60 * 1000000000) ∧
    (∀ key, w.env key = [] ∨ (∃ c ∈ unsigned (w.env key), isDigit c = false) →
      ∃ e, Atoi w.intSize (w.env key) = .error e) ∧
    (exec w [.main]).config = loadConfig w.intSize w.env ∧
    (exec w [.main]).mainPc = .lfStart ∧
    (exec w [.main]).exitCode = none := by
  refine ⟨fun e h => parseInterval_error _ _ e h, fun e h => parseInterval_error _ _ e h,
    fun key h => ?_, rfl, rfl, rfl⟩
  rcases h with h | h
  · rw [h]
    exact ⟨_, rfl⟩
  · exact Atoi_nondigit _ _ h

/-- C2, amended, at `STATUS_INTERVAL=1m`: the default of 60 seconds applies. -/
theorem loadConfig_interval_default_witness :
    Atoi 64 (envOf [("STATUS_INTERVAL", "1m")] "STATUS_INTERVAL") = .error .errSyntax ∧
    (loadConfig 64 (envOf [("STATUS_INTERVAL", "1m")])).StatusInterval = 60 * 1000000000 :=
  ⟨rfl,
    (loadConfig_interval_default (World.of [("STATUS_INTERVAL", "1m")] false false)).1
      .errSyntax rfl⟩

/-- C9: `loadConfig` sets `config.SyslogForwardAddresses` to no addresses when
`SYSLOG_FORWARD_ADDRESSES` is empty or missing, and otherwise to the
comma-separated pieces of the value: no piece contains a comma, there is one
piece more than there are commas, and joining the pieces with "," gives the
value back. -/
theorem loadConfig_forward_addresses (intSize : Nat) (env : Env) :
    (env "SYSLOG_FORWARD_ADDRESSES" = [] →
      (loadConfig intSize env).SyslogForwardAddresses = []) ∧
    (env "SYSLOG_FORWARD_ADDRESSES" ≠ [] →
      (∀ e ∈ (loadConfig intSize env).SyslogForwardAddresses, ',' ∉ e) ∧
      (loadConfig intSize env).SyslogForwardAddresses.length =
        (env "SYSLOG_FORWARD_ADDRESSES").count ',' + 1 ∧
      Join (loadConfig intSize env).SyslogForwardAddresses ',' =
        env "SYSLOG_FORWARD_ADDRESSES") := by
  constructor
  · intro h
    simp [loadConfig, h]
  · intro h
    have : (loadConfig intSize env).SyslogForwardAddresses =
        Split (env "SYSLOG_FORWARD_ADDRESSES") ',' := by
      simp [loadConfig, h]
    rw [this]
    exact Split_spec _ _

/-- C9 at `SYSLOG_FORWARD_ADDRESSES=a,b,,c`: four pieces, the third of them empty. -/
theorem loadConfig_forward_addresses_witness :
    envOf [("SYSLOG_FORWARD_ADDRESSES", "a,b,,c")] "SYSLOG_FORWARD_ADDRESSES" ≠ [] ∧
    (loadConfig 64 (envOf [("SYSLOG_FORWARD_ADDRESSES", "a,b,,c")])).SyslogForwardAddresses =
      [['a'], ['b'], [], ['c']] ∧
    Join (loadConfig 64 (envOf [("SYSLOG_FORWARD_ADDRESSES", "a,b,,c")])).SyslogForwardAddresses
      ',' = envOf [("SYSLOG_FORWARD_ADDRESSES", "a,b,,c")] "SYSLOG_FORWARD_ADDRESSES" :=
  ⟨by decide, by decide,
    ((loadConfig_forward_addresses 64 (envOf [("SYSLOG_FORWARD_ADDRESSES", "a,b,,c")])).2
      (by decide)).2.2⟩

/-! ### The supervisor: the claims -/

theorem failing_pc (w : World) (s : State) (hs : InvS w s) (herr : w.lfStartErr = true) :
    s.mainPc = .loadConfig ∨ s.mainPc = .lfStart ∨ s.mainPc = .fatalf ∨ s.mainPc = .terminated := by
  have ho := hs.lfOk
  rw [herr] at ho
  cases hpc : s.mainPc <;> simp [hpc, MainPc.idx] at ho ⊢

/-- C3: if `lf.Start` returns an error then, on every schedule, `main` ends the
process through `log.Fatalf` with status 1 as its next statement: the history is
a prefix of "configuration loaded, `lf.Start` failed, fatal exit", so the metrics
runner is never created or started, the status reporter goroutine is never
started and the signal listener is never created or armed; and after three turns
of `main` the process has ended with status 1. -/
theorem main_lfStart_failure_fatal (w : World) (acts : List Action)
    (herr : w.lfStartErr = true) :
    (exec w acts).reporterPc = .notStarted ∧
    (exec w acts).listener = Listener.make ∧
    (exec w acts).callbackPc = .outside ∧
    (exec w acts).log <+: [.configLoaded, .lfStart false, .fatal] ∧
    Event.runnerCreated ∉ (exec w acts).log ∧
    (∀ ok, Event.runnerStart ok ∉ (exec w acts).log) ∧
    Event.reporterSpawned ∉ (exec w acts).log ∧
    Event.handlerSpawned ∉ (exec w acts).log ∧
    Event.notified ∉ (exec w acts).log ∧
    ((exec w acts).exitCode = none ∨ (exec w acts).exitCode = some 1) ∧
    (3 ≤ acts.count .main →
      (exec w acts).exitCode = some 1 ∧
      (exec w acts).log = [.configLoaded, .lfStart false, .fatal]) := by
  have hs := InvS_exec w acts
  have hl := InvL_exec w acts
  have hpc := failing_pc w _ hs herr
  have hlog := hl.fail herr
  have hcode := hs.code
  have hidx := exec_idx w acts
  rw [herr] at hidx
  simp only [if_true] at hidx
  have hb : (exec w acts).mainPc.beforeReporter = true := by
    rcases hpc with h | h | h | h <;> rw [h] <;> rfl
  obtain ⟨e1, _, _, e4, e5⟩ := hs.early hb
  refine ⟨e1, e4, e5, ?_⟩
  rw [hlog, hcode]
  rcases hpc with h | h | h | h <;> rw [h] at hidx ⊢ <;>
    simp [failLog, MainPc.exitCode, MainPc.idx, List.prefix_iff_eq_take] at hidx ⊢ <;> omega

/-- C3 on a schedule that, after `lf.Start` has failed, still offers turns to
every goroutine and delivers a SIGTERM. -/
theorem main_lfStart_failure_fatal_witness :
    (World.of [] true false).lfStartErr = true ∧
    (exec (World.of [] true false)
      [.main, .main, .main, .main, .reporter true, .deliver 15, .handler, .main]).exitCode =
      some 1 ∧
    (exec (World.of [] true false)
      [.main, .main, .main, .main, .reporter true, .deliver 15, .handler, .main]).log =
      [.configLoaded, .lfStart false, .fatal] :=
  ⟨rfl, (main_lfStart_failure_fatal (World.of [] true false)
    [.main, .main, .main, .main, .reporter true, .deliver 15, .handler, .main] rfl).2.2.2.2.2.2.2.2.2.2
      (by decide)⟩

/-- C4: if `lf.Start` succeeds and `mRunner.Start` returns an error, every schedule
leads to the same state as with a successful `mRunner.Start`, up to the recorded
outcome of that call; after four turns of `main` the failed start is in the
history; after seven turns the status reporter goroutine is started, the listener
is armed for interrupt, SIGTERM and SIGQUIT, its goroutine waits at `<-sigChan`
(or has already invoked the callback) and `main` is at (or past) the receive on
the completion channel; from then on any of the three signals followed by two
turns of the signal goroutine leaves the callback invoked and the abort channel
closed, and a signal that finds the goroutine waiting on the empty channel is the
one the callback is invoked with; and the process ends only by `main` returning
after the completion channel has been closed. -/
theorem main_metrics_failure_tolerated (w : World) (acts : List Action)
    (hlf : w.lfStartErr = false) (hm : w.mStartErr = true) :
    forgetRunnerStart (exec w acts) =
      forgetRunnerStart (exec { w with mStartErr := false } acts) ∧
    (4 ≤ acts.count .main → Event.runnerStart false ∈ (exec w acts).log) ∧
    (7 ≤ acts.count .main →
      (exec w acts).reporterPc ≠ .notStarted ∧
      (exec w acts).listener.notify = some [Interrupt, SIGTERM, SIGQUIT] ∧
      ((exec w acts).mainPc = .waitExit ∨ (exec w acts).mainPc = .returned) ∧
      ((exec w acts).listener.waiting = true ∨ (exec w acts).listener.calls ≠ []) ∧
      (∀ sig ∈ [Interrupt, SIGTERM, SIGQUIT],
        (exec w (acts ++ [.deliver sig, .handler, .handler])).abortClosed = true ∧
        (∃ x, Event.callback x ∈ (exec w (acts ++ [.deliver sig, .handler, .handler])).log) ∧
        ((exec w acts).listener.waiting = true → (exec w acts).listener.sigChan = [] →
          (exec w (acts ++ [.deliver sig, .handler])).listener.calls = [sig]))) ∧
    ((exec w acts).exitCode = none ∨
      ((exec w acts).exitCode = some 0 ∧ (exec w acts).exitClosed = true)) := by
  have hs := InvS_exec w acts
  have hh := InvH_exec w acts
  have hidx := exec_idx w acts
  rw [hlf] at hidx
  simp only [Bool.false_eq_true, if_false] at hidx
  refine ⟨forget_run w { w with mStartErr := false } rfl rfl rfl State.init State.init acts rfl,
    fun h4 => ?_, fun h7 => ?_, ?_⟩
  · have := run_runnerStart w State.init acts (InvS_init w)
      (by simp [State.init, MainPc.idx]) (by show 4 ≤ (exec w acts).mainPc.idx; omega)
    simpa [hm] using this
  · have h7' : 7 ≤ (exec w acts).mainPc.idx := by omega
    have harm : (exec w acts).mainPc.armed = true := by
      cases hpc : (exec w acts).mainPc <;> simp [hpc, MainPc.idx, MainPc.armed] at h7' ⊢
    have hb : (exec w acts).mainPc.beforeReporter = false := by
      cases hpc : (exec w acts).mainPc <;> simp [hpc, MainPc.idx, MainPc.beforeReporter] at h7' ⊢
    refine ⟨hs.started hb, hs.armed harm, ?_, ?_, fun sig hsig => ⟨?_, ?_, fun hw hch => ?_⟩⟩
    · cases hpc : (exec w acts).mainPc <;> simp [hpc, MainPc.armed] at harm ⊢
    · cases hw : (exec w acts).listener.waiting
      · exact Or.inr (hh.live harm hw)
      · exact Or.inl rfl
    · have : exec w (acts ++ [.deliver sig, .handler, .handler]) =
          run w (exec w acts) [.deliver sig, .handler, .handler] := run_append w _ acts _
      rw [this]
      exact signal_closes_abort w _ sig hs hh harm hsig
    · have hcl : (exec w (acts ++ [.deliver sig, .handler, .handler])).abortClosed = true := by
        have : exec w (acts ++ [.deliver sig, .handler, .handler]) =
            run w (exec w acts) [.deliver sig, .handler, .handler] := run_append w _ acts _
        rw [this]
        exact signal_closes_abort w _ sig hs hh harm hsig
      exact (InvL_exec w _).cb ((InvS_exec w _).closedAbort hcl)
    · have : exec w (acts ++ [.deliver sig, .handler]) =
          run w (exec w acts) [.deliver sig, .handler] := run_append w _ acts _
      rw [this]
      exact signal_reaches_callback w _ sig hs harm hsig hw hch
  · have hcode := hs.code
    have hret := hs.ret
    have hle := hs.lfErr
    rw [hcode]
    cases hpc : (exec w acts).mainPc <;> simp [hpc, MainPc.exitCode, hlf] at hret hle ⊢
    exact hret

/-- C4 with a failed `mRunner.Start`: after the seven statements of `main` the
signal goroutine waits, and a SIGTERM then reaches the callback, which closes the
abort channel. -/
theorem main_metrics_failure_tolerated_witness :
    (World.of [] false true).lfStartErr = false ∧ (World.of [] false true).mStartErr = true ∧
    Event.runnerStart false ∈ (exec (World.of [] false true)
      [.main, .main, .main, .main, .main, .main, .main]).log ∧
    (exec (World.of [] false true)
      [.main, .main, .main, .main, .main, .main, .main]).listener.waiting = true ∧
    (exec (World.of [] false true)
      ([.main, .main, .main, .main, .main, .main, .main] ++
        [.deliver SIGTERM, .handler])).listener.calls = [SIGTERM] ∧
    (exec (World.of [] false true)
      ([.main, .main, .main, .main, .main, .main, .main] ++
        [.deliver SIGTERM, .handler, .handler])).abortClosed = true :=
  ⟨rfl, rfl,
    (main_metrics_failure_tolerated (World.of [] false true)
      [.main, .main, .main, .main, .main, .main, .main] rfl rfl).2.1 (by decide),
    by decide,
    (((main_metrics_failure_tolerated (World.of [] false true)
      [.main, .main, .main, .main, .main, .main, .main] rfl rfl).2.2.1
        (by decide)).2.2.2.2 SIGTERM (by decide)).2.2 (by decide) (by decide),
    (((main_metrics_failure_tolerated (World.of [] false true)
      [.main, .main, .main, .main, .main, .main, .main] rfl rfl).2.2.1
        (by decide)).2.2.2.2 SIGTERM (by decide)).1⟩

/-- C5: for every sequence of signal deliveries and goroutine turns that a
listener created by `startSignalHandler` goes through, the callback is invoked at
most once; an invocation, if any, is with the first delivered matching signal;
and once a matching signal has been delivered, the next turn of the goroutine
leaves the callback invoked exactly once, with that first signal, whatever is
delivered later. -/
theorem startSignalHandler_callback_once (signals : List Signal) (evs : List ListenerEvent) :
    ((startSignalHandler signals).run evs).calls.length ≤ 1 ∧
    (∀ sig ∈ ((startSignalHandler signals).run evs).calls,
      (matching signals evs).head? = some sig) ∧
    (∀ first rest more, matching signals evs = first :: rest →
      ((startSignalHandler signals).run (evs ++ .goroutine :: more)).calls = [first]) := by
  obtain ⟨_, i2, i3⟩ := Listener.run_inv signals evs
  refine ⟨?_, ?_, ?_⟩
  · cases hw : ((startSignalHandler signals).run evs).waiting
    · rw [(i3 hw).1]
      simp
    · rw [(i2 hw).1]
      simp
  · intro sig hsig
    cases hw : ((startSignalHandler signals).run evs).waiting
    · rw [(i3 hw).1] at hsig
      cases hm : matching signals evs with
      | nil => simp [hm] at hsig
      | cons x xs =>
        simp only [hm, List.take_succ_cons, List.take_zero, List.mem_singleton] at hsig
        simp [hsig]
    · rw [(i2 hw).1] at hsig
      cases hsig
  · intro first rest more hm
    have hrun : (startSignalHandler signals).run (evs ++ .goroutine :: more) =
        (((startSignalHandler signals).run evs).next .goroutine).run more := by
      simp [Listener.run, List.foldl_append]
    rw [hrun]
    generalize (startSignalHandler signals).run evs = l at i2 i3
    obtain ⟨waiting, notify, sigChan, calls⟩ := l
    have hnext : (Listener.next ⟨waiting, notify, sigChan, calls⟩ .goroutine).calls = [first] ∧
        (Listener.next ⟨waiting, notify, sigChan, calls⟩ .goroutine).waiting = false := by
      cases waiting
      · have := (i3 rfl).1
        simp only [] at this
        simp [Listener.next, Listener.receive, this, hm]
      · obtain ⟨c1, c2⟩ := i2 rfl
        simp only [] at c1 c2
        simp [Listener.next, Listener.receive, c1, c2, hm, sigChanCap]
    rw [(Listener.calls_fixed _ more hnext.2).1]
    exact hnext.1

/-- C5 on a burst of SIGTERM, SIGINT, SIGHUP and SIGQUIT before the goroutine
runs: the callback is invoked once, with SIGTERM. -/
theorem startSignalHandler_callback_once_witness :
    matching [Interrupt, SIGTERM, SIGQUIT]
      [.deliver 15, .deliver 2, .deliver 1, .deliver 3] = [15, 2, 3] ∧
    ((startSignalHandler [Interrupt, SIGTERM, SIGQUIT]).run
      ([.deliver 15, .deliver 2, .deliver 1, .deliver 3] ++
        .goroutine :: [.deliver 15, .goroutine])).calls = [15] :=
  ⟨by decide,
    (startSignalHandler_callback_once [Interrupt, SIGTERM, SIGQUIT]
      [.deliver 15, .deliver 2, .deliver 1, .deliver 3]).2.2 15 [2, 3]
      [.deliver 15, .goroutine] (by decide)⟩

/-- C6: on every schedule, with any number of signals delivered, `close(abortReporter)`
is performed at most once and no panic occurs, so the process never ends with the
status of a panic; and once the abort channel is closed it stays closed on every
continuation of the schedule. -/
theorem abort_closed_at_most_once (w : World) (acts : List Action) :
    (exec w acts).log.count .abortClosed ≤ 1 ∧
    Event.panic ∉ (exec w acts).log ∧
    (exec w acts).exitCode ≠ some 2 ∧
    (∀ more, (exec w acts).abortClosed = true → (exec w (acts ++ more)).abortClosed = true) := by
  have hs := InvS_exec w acts
  have hl := InvL_exec w acts
  refine ⟨?_, hl.noPanic, ?_, fun more h => ?_⟩
  · rw [hl.abortCount]
    split <;> simp
  · rw [hs.code]
    cases (exec w acts).mainPc <;> simp [MainPc.exitCode]
  · show (run w State.init (acts ++ more)).abortClosed = true
    rw [run_append]
    exact run_abortClosed w _ more hs h

/-- C6 on a schedule with five signals: the abort channel is closed by the callback
for the first of them and is still closed after the others. -/
theorem abort_closed_at_most_once_witness :
    (exec (World.of [] false false)
      [.main, .main, .main, .main, .main, .main, .main, .deliver 15, .deliver 2,
        .handler, .handler]).abortClosed = true ∧
    (exec (World.of [] false false)
      ([.main, .main, .main, .main, .main, .main, .main, .deliver 15, .deliver 2,
        .handler, .handler] ++
        [.deliver 3, .deliver 15, .handler, .deliver 2, .handler, .handler])).abortClosed =
      true :=
  ⟨by decide,
    (abort_closed_at_most_once (World.of [] false false)
      [.main, .main, .main, .main, .main, .main, .main, .deliver 15, .deliver 2,
        .handler, .handler]).2.2.2
      [.deliver 3, .deliver 15, .handler, .deliver 2, .handler, .handler] (by decide)⟩

theorem append_cons_eq_snoc (A B C : List Event) (x : Event) (h : A ++ x :: B = C ++ [x])
    (hx : x ∉ C) : A = C ∧ B = [] := by
  rcases List.eq_nil_or_concat B with rfl | ⟨B1, z, rfl⟩
  · have h1 : A ++ [x] = C ++ [x] := h
    exact ⟨List.append_cancel_right h1, rfl⟩
  · have h1 : (A ++ x :: B1) ++ [z] = C ++ [x] := by
      rw [← h]
      simp
    obtain ⟨h2, _⟩ := List.append_inj' h1 rfl
    exact absurd (h2 ▸ (by simp : x ∈ A ++ x :: B1)) hx

/-- C7: on every schedule, the status reporter task closes the completion channel
at most once, and wherever `close(exit)` stands in the history the task has
observed the abort before it and issues nothing after it: no `reportStatus`
call, no second observation and no second close. -/
theorem exit_closed_last (w : World) (acts : List Action) :
    (exec w acts).log.count .exitClosed ≤ 1 ∧
    (∀ pre post, (exec w acts).log = pre ++ .exitClosed :: post →
      Event.abortObserved ∈ pre ∧ Event.report ∉ post ∧
      ∀ e ∈ post, e.ofReporter = false) := by
  have hl := (InvL_exec w acts).rep
  generalize (exec w acts).log = log at hl
  generalize (exec w acts).reports = n at hl
  generalize (exec w acts).reporterPc = pc at hl
  have hrep : ∀ e ∈ List.replicate n Event.report, e = .report := fun e he =>
    (List.mem_replicate.mp he).2
  constructor
  · have hc : log.count .exitClosed = (log.filter Event.ofReporter).count .exitClosed := by
      rw [List.count_filter]
      rfl
    rw [hc, hl, List.count_append]
    have h0 : (List.replicate n Event.report).count .exitClosed = 0 :=
      List.count_eq_zero_of_not_mem fun hm => by cases hrep _ hm
    rw [h0]
    cases pc <;> simp [reporterTail]
  · intro pre post hlog
    have hf : pre.filter Event.ofReporter ++ .exitClosed :: post.filter Event.ofReporter =
        List.replicate n Event.report ++ reporterTail pc := by
      rw [← hl, hlog, List.filter_append]
      rfl
    have hmem : Event.exitClosed ∈ List.replicate n Event.report ++ reporterTail pc := by
      rw [← hf]
      simp
    have hpc : reporterTail pc = [.abortObserved, .exitClosed] := by
      rcases List.mem_append.mp hmem with hm | hm
      · cases hrep _ hm
      · cases pc <;> simp [reporterTail] at hm ⊢
    rw [hpc] at hf
    have hf2 : pre.filter Event.ofReporter ++ .exitClosed :: post.filter Event.ofReporter =
        (List.replicate n Event.report ++ [.abortObserved]) ++ [.exitClosed] := by
      rw [hf]
      simp
    obtain ⟨h1, h2⟩ := append_cons_eq_snoc _ _ _ _ hf2 (by
      intro hm
      rcases List.mem_append.mp hm with hm | hm
      · cases hrep _ hm
      · simp at hm)
    have hpost : ∀ e ∈ post, e.ofReporter = false := by
      intro e he
      cases hb : e.ofReporter
      · rfl
      · have : e ∈ post.filter Event.ofReporter := List.mem_filter.mpr ⟨he, hb⟩
        rw [h2] at this
        cases this
    refine ⟨?_, fun hr => ?_, hpost⟩
    · have : Event.abortObserved ∈ pre.filter Event.ofReporter := by
        rw [h1]
        simp
      exact (List.mem_filter.mp this).1
    · have := hpost _ hr
      simp [Event.ofReporter] at this

/-- C7 on a schedule with two reports, a SIGTERM and a full shutdown. -/
theorem exit_closed_last_witness :
    (exec (World.of [("STATUS_INTERVAL", "0")] false false) shutdownSchedule).log =
      [.configLoaded, .lfStart true, .runnerCreated, .runnerStart true, .reporterSpawned,
        .handlerSpawned, .notified, .report, .report, .callback 15, .abortClosed,
        .abortObserved] ++ .exitClosed :: [.runnerStopped, .mainReturned] ∧
    Event.abortObserved ∈
      [Event.configLoaded, .lfStart true, .runnerCreated, .runnerStart true, .reporterSpawned,
        .handlerSpawned, .notified, .report, .report, .callback 15, .abortClosed,
        .abortObserved] ∧
    Event.report ∉ [Event.runnerStopped, Event.mainReturned] :=
  ⟨rfl,
    ((exit_closed_last (World.of [("STATUS_INTERVAL", "0")] false false) shutdownSchedule).2
      [.configLoaded, .lfStart true, .runnerCreated, .runnerStart true, .reporterSpawned,
        .handlerSpawned, .notified, .report, .report, .callback 15, .abortClosed,
        .abortObserved] [.runnerStopped, .mainReturned] rfl).1,
    ((exit_closed_last (World.of [("STATUS_INTERVAL", "0")] false false) shutdownSchedule).2
      [.configLoaded, .lfStart true, .runnerCreated, .runnerStart true, .reporterSpawned,
        .handlerSpawned, .notified, .report, .report, .callback 15, .abortClosed,
        .abortObserved] [.runnerStopped, .mainReturned] rfl).2.1⟩

theorem run_phase_mono (w : World) (s : State) (acts : List Action) (hs : InvS w s) :
    (phase s).rank ≤ (phase (run w s acts)).rank := by
  induction acts generalizing s with
  | nil => exact le_refl _
  | cons a acts ih =>
    exact le_trans (next_phase w s a hs).1 (ih _ (InvS_next w s a hs))

/-- C8: on every schedule of an execution in which `lf.Start` succeeded, `main` has
returned only if the completion channel is closed, and the process ends in no
other way; in the history the return of `main` comes after `close(exit)`, which
comes after `close(abortReporter)`, which comes after the invocation of the signal
callback; and the supervisor state never moves backwards in the order Starting,
Running, ShuttingDown, Stopped and moves forward one state at a time. -/
theorem main_waits_for_completion (w : World) (acts : List Action)
    (hlf : w.lfStartErr = false) :
    ((exec w acts).mainPc = .returned → (exec w acts).exitClosed = true) ∧
    ((exec w acts).exitCode = none ∨
      ((exec w acts).exitCode = some 0 ∧ (exec w acts).mainPc = .returned)) ∧
    (∀ pre post, (exec w acts).log = pre ++ .mainReturned :: post → Event.exitClosed ∈ pre) ∧
    (∀ pre post, (exec w acts).log = pre ++ .exitClosed :: post → Event.abortClosed ∈ pre) ∧
    (∀ pre post, (exec w acts).log = pre ++ .abortClosed :: post →
      ∃ sig, Event.callback sig ∈ pre) ∧
    (∀ a, (phase (exec w acts)).rank ≤ (phase (exec w (acts ++ [a]))).rank ∧
      (phase (exec w (acts ++ [a]))).rank ≤ (phase (exec w acts)).rank + 1) ∧
    (∀ more, (phase (exec w acts)).rank ≤ (phase (exec w (acts ++ more))).rank) := by
  have hs := InvS_exec w acts
  have hl := InvL_exec w acts
  refine ⟨hs.ret, ?_, ?_, ?_, ?_, ?_, ?_⟩
  · have hcode := hs.code
    have hle := hs.lfErr
    rw [hcode]
    cases hpc : (exec w acts).mainPc <;> simp [hpc, MainPc.exitCode, hlf] at hle ⊢
  · intro pre post h
    obtain ⟨x, hx, rfl⟩ := hl.ord1 pre post _ h rfl
    exact hx
  · intro pre post h
    obtain ⟨x, hx, rfl⟩ := hl.ord2 pre post _ h rfl
    exact hx
  · intro pre post h
    obtain ⟨x, hx, sig, rfl⟩ := hl.ord3 pre post _ h rfl
    exact ⟨sig, hx⟩
  · intro a
    have : exec w (acts ++ [a]) = next w (exec w acts) a := by
      simp [exec, run, List.foldl_append]
    rw [this]
    exact next_phase w _ a hs
  · intro more
    have : exec w (acts ++ more) = run w (exec w acts) more := run_append w _ acts more
    rw [this]
    exact run_phase_mono w _ more hs

/-- C8 on a schedule with a full shutdown: `main` has returned, and its return is
the last event of the history, after `close(exit)`. -/
theorem main_waits_for_completion_witness :
    (World.of [("STATUS_INTERVAL", "0")] false false).lfStartErr = false ∧
    (exec (World.of [("STATUS_INTERVAL", "0")] false false) shutdownSchedule).mainPc =
      .returned ∧
    (exec (World.of [("STATUS_INTERVAL", "0")] false false) shutdownSchedule).exitClosed =
      true :=
  ⟨rfl, rfl,
    (main_waits_for_completion (World.of [("STATUS_INTERVAL", "0")] false false)
      shutdownSchedule rfl).1 rfl⟩

/-- C10: whatever the configured interval, in every reachable state in which the
status reporter task waits in its `select`, the abort channel is closed and the
timer of the current cycle has not run out, the timer case cannot be taken (no
report fires), the abort case can, and the step of the task that follows it closes
the completion channel, with the timer still pending and no report issued. -/
theorem abort_preempts_timer (w : World) (acts : List Action)
    (hsel : (exec w acts).reporterPc = .select) (habort : (exec w acts).abortClosed = true)
    (htimer : 0 < (exec w acts).timer) :
    step w (exec w acts) (.reporter false) = none ∧
    ∃ s1, step w (exec w acts) (.reporter true) = some s1 ∧
      s1.log = (exec w acts).log ++ [.abortObserved] ∧
      s1.timer = (exec w acts).timer ∧
      ∀ pick, ∃ s2, step w s1 (.reporter pick) = some s2 ∧
        s2.exitClosed = true ∧ s2.reporterPc = .returned ∧
        s2.reports = (exec w acts).reports ∧ s2.timer = (exec w acts).timer ∧
        s2.log = (exec w acts).log ++ [.abortObserved, .exitClosed] := by
  have hs := InvS_exec w acts
  generalize exec w acts = s at hs hsel habort htimer
  have hx : s.exitClosed = false := by
    cases hx : s.exitClosed
    · rfl
    · have := hs.exitIff.mp hx
      rw [hsel] at this
      cases this
  have hb : s.mainPc.beforeReporter = false := by
    cases hb : s.mainPc.beforeReporter
    · rfl
    · have := (hs.early hb).1
      rw [hsel] at this
      cases this
  have hc : s.exitCode = none := by
    rw [hs.code]
    have hret := hs.ret
    cases hpc : s.mainPc <;> simp [hpc, MainPc.exitCode, MainPc.beforeReporter, hx] at hb hret ⊢
  have ht : s.timer ≠ 0 := by omega
  refine ⟨by simp [step, stepReporter, hc, hsel, ht],
    { s with reporterPc := .closeExit, log := s.log ++ [.abortObserved] }, ?_, rfl, rfl,
    fun pick => ⟨{ s with reporterPc := .returned, exitClosed := true,
                          log := s.log ++ [.abortObserved] ++ [.exitClosed] },
      ?_, rfl, rfl, rfl, rfl, by simp⟩⟩
  · simp [step, stepReporter, hc, hsel, habort]
  · simp [step, stepReporter, hc, hx]

/-- C10 on a schedule that leaves the reporter in its `select` with the whole
default interval still to run when the callback closes the abort channel. -/
theorem abort_preempts_timer_witness :
    (exec (World.of [] false false)
      [.main, .main, .main, .main, .main, .main, .main, .reporter false, .tick 1000000000,
        .deliver 2, .handler, .handler]).timer = 59000000000 ∧
    step (World.of [] false false) (exec (World.of [] false false)
      [.main, .main, .main, .main, .main, .main, .main, .reporter false, .tick 1000000000,
        .deliver 2, .handler, .handler]) (.reporter false) = none :=
  ⟨by decide,
    (abort_preempts_timer (World.of [] false false)
      [.main, .main, .main, .main, .main, .main, .main, .reporter false, .tick 1000000000,
        .deliver 2, .handler, .handler] (by decide) (by decide) (by decide)).1⟩

end Bs
